import Mathlib

/-! docx: removal of custom XML parts and of main-document elements.

A shallow embedding of `customxml.go` and `maindoc.go`.

* Go strings are Lean strings (valid UTF-8 text, on which matching by bytes and
  matching by characters agree); the text-level operations (`strings.HasSuffix`,
  `strings.TrimSuffix`, `strings.Replacer`) work on the character lists.
* A Go `map[string]string` is an association list with pairwise distinct keys
  (`GoMap`); the order in which `range` visits a map is a parameter.
* The XML library `github.com/antchfx/xmlquery` is a parameter (`Env`): parsing,
  XPath evaluation, serialisation and node accessors are fields of a record, so
  every general theorem holds for every behaviour of the library.
* A Go function returning `error` returns an `Outcome`/`Ret`; a panic that is not
  recovered is a third kind of result.
-/

namespace docx

/-! ## Go runtime values -/

/-- The error values that the package produces, by Go type. `errorString` is what
`errors.New` and `fmt.Errorf` build; `libraryError` is an error handed back by
`xmlquery.Parse`. -/
inductive GoError where
  | NoCustomXmlPartError (err : String)
  | ExistingRelationshipsError (err : String)
  | NoElementsFoundAtXPath (err : String)
  | errorString (s : String)
  | libraryError (s : String)
deriving DecidableEq, Repr

/-- The text of an error, `Error()`. -/
def GoError.Error : GoError → String
  | .NoCustomXmlPartError err => err
  | .ExistingRelationshipsError err => err
  | .NoElementsFoundAtXPath err => err
  | .errorString s => s
  | .libraryError s => s

/-- The result of a call that yields a value: a value with a nil error, a non-nil
error, or a panic that reaches the caller. -/
inductive Outcome (α : Type) where
  | ok (a : α)
  | error (e : GoError)
  | panic (v : String)
deriving DecidableEq, Repr

/-- The result of a call that yields only an `error`: nil, a non-nil error, or a
panic that reaches the caller. -/
inductive Ret where
  | nil
  | error (e : GoError)
  | panic (v : String)
deriving DecidableEq, Repr

/-- A Go `map[string]string`: entries with pairwise distinct keys. -/
abbrev GoMap := List (String × String)

/-- The lookup `m[k]` with the comma-ok form. -/
def GoMap.get? (m : GoMap) (k : String) : Option String :=
  List.lookup k m

/-- The assignment `m[k] = v`: overwrites the entry of `k` or adds one. -/
def GoMap.set (m : GoMap) (k v : String) : GoMap :=
  if m.any (fun e => e.1 == k) then m.map (fun e => if e.1 == k then (k, v) else e)
  else m ++ [(k, v)]

/-- The builtin `delete(m, k)`. -/
def GoMap.delete (m : GoMap) (k : String) : GoMap :=
  m.filter (fun e => e.1 != k)

/-- The function `strings.HasSuffix`. -/
def hasSuffix (s suffix : String) : Bool :=
  suffix.data.isSuffixOf s.data

/-- The function `strings.TrimSuffix`. -/
def trimSuffix (s suffix : String) : String :=
  if hasSuffix s suffix then ⟨s.data.take (s.data.length - suffix.data.length)⟩ else s

/-! ## The XML library -/

/-- The node kinds of `xmlquery.NodeType`; `other` stands for any further value of
the underlying integer type. -/
inductive NodeType where
  | DocumentNode
  | DeclarationNode
  | ElementNode
  | TextNode
  | CharDataNode
  | CommentNode
  | AttributeNode
  | other (code : Nat)
deriving DecidableEq, Repr

/-- The environment of the package: the XML library and the iteration order of
maps. `Find` yields `.error v` when the evaluator panics with value `v`.
`rangeOrder m` is the order in which a `range` loop visits the entries of `m`;
Go leaves it unspecified, so it is an arbitrary rearrangement. -/
structure Env (Node : Type) where
  Parse : String → Except String Node
  Find : Node → String → Except String (List Node)
  OutputXML : Node → Bool → String
  SelectAttr : Node → String → String
  nodeType : Node → NodeType
  NamespaceURI : Node → String
  FirstChild : Node → Option Node
  LastChild : Node → Option Node
  rangeOrder : GoMap → GoMap
  rangeOrder_perm : ∀ m : GoMap, (rangeOrder m).Perm m

/-! ## Constants of `customxml.go` -/

def documentRelsPath : String := "word/_rels/document.xml.rels"

def iso29500RelationshipsNS : String :=
  "http://schemas.openxmlformats.org/officeDocument/2006/relationships"

def documentRelsNS : String :=
  "http://schemas.openxmlformats.org/package/2006/relationships"

def retrieveDocumentRelationshipsXPath : String :=
  "/*[local-name()='Relationships' and namespace-uri()='" ++ documentRelsNS ++
    "']/*[ local-name()='Relationship' and namespace-uri()='" ++ documentRelsNS ++ "' ]"

/-! ## The package -/

/-- Modelled from the spec: the declaration of the zip entries held in `d.files` is
not among the sources; a part is a path and a content. -/
structure ZipFile where
  Name : String
  content : String
deriving DecidableEq, Repr

/-- Modelled from the spec: the declaration of `Docx` is not among the sources; the
fields are those the two files read and write (part list, main document content,
relationships text, custom-data map). -/
structure Docx where
  files : List ZipFile
  content : String
  links : String
  customXML : GoMap
deriving DecidableEq, Repr

/-- GetCustomXML returns the custom-data map of the package. -/
def GetCustomXML (d : Docx) : GoMap :=
  d.customXML

/-- The textual form of a node kind. -/
def getXMLNodeType : NodeType → String
  | .AttributeNode => "AttributeNode"
  | .DocumentNode => "DocumentNode"
  | .DeclarationNode => "DeclarationNode"
  | .ElementNode => "ElementNode"
  | .TextNode => "TextNode"
  | .CharDataNode => "CharDataNode"
  | .CommentNode => "CommentNode"
  | .other _ => ""

/-! ## `remove` -/

/-- The lookup of `strings.Replacer` at one position of the input: among the old
strings that start the remaining input, the one given first wins. An empty old
string is replaced by the empty string, which changes nothing, so it is skipped. -/
def firstMatch (olds : List (List Char)) (s : List Char) : Option (List Char) :=
  olds.find? (fun o => !o.isEmpty && o.isPrefixOf s)

/-- The scan of `Replacer.Replace` when every new string is empty: matches are
taken in the order they appear in the input, without overlap. The counter is the
number of characters of the current match still to be dropped. -/
def replaceFrom (olds : List (List Char)) : Nat → List Char → List Char
  | _, [] => []
  | k + 1, _ :: cs => replaceFrom olds k cs
  | 0, c :: cs =>
    match firstMatch olds (c :: cs) with
    | some o => replaceFrom olds (o.length - 1) cs
    | none => c :: replaceFrom olds 0 cs

/-- The function `remove`: the replacer built from the pairs `(relsElement, "")` is
applied to the input; the error result is always nil. -/
def remove (inputString : String) (toBeRemoved : List String) : String × Option GoError :=
  (⟨replaceFrom (toBeRemoved.map String.data) 0 inputString.data⟩, none)

/-- The function `revertOnError`, as the new value of the target. -/
def revertOnError (backup : String) (targetData : String) (err : Option GoError) : String :=
  if err.isSome then backup else targetData

/-! ## The relationship index -/

/-- The loop of `getCustomXMLRelationshipIDs` over the matched nodes. -/
def collectRelationships {Node : Type} (env : Env Node) :
    List Node → GoMap → GoMap → Outcome (GoMap × GoMap)
  | [], relationshipIDmap, relationshipElementMap =>
    .ok (relationshipIDmap, relationshipElementMap)
  | n :: rest, relationshipIDmap, relationshipElementMap =>
    if env.nodeType n ≠ NodeType.ElementNode then
      .error (.errorString
        ("While retrieving relationships only Element Nodes where expected but found : '"
          ++ getXMLNodeType (env.nodeType n) ++ "'"))
    else
      collectRelationships env rest
        (relationshipIDmap.set (env.SelectAttr n "Id") (env.SelectAttr n "Target"))
        (relationshipElementMap.set (env.SelectAttr n "Id") (env.OutputXML n true))

/-- The function `getCustomXMLRelationshipIDs`: the two maps from relationship id to
target and to serialized element. A panic of the evaluator is recovered into an
error. -/
def getCustomXMLRelationshipIDs {Node : Type} (env : Env Node) (d : Docx) :
    Outcome (GoMap × GoMap) :=
  match env.Parse d.links with
  | .error parseErr => .error (.libraryError parseErr)
  | .ok documentRelsContent =>
    match env.Find documentRelsContent retrieveDocumentRelationshipsXPath with
    | .error r => .error (.errorString ("Recovered from XPath error :" ++ r))
    | .ok list =>
      if list.length = 0 then .ok ([], [])
      else collectRelationships env list [] []

/-- The function `relationshipIdsToGivenOPCPart`: the ids whose target ends with
the given path, and the element map restricted to them. -/
def relationshipIdsToGivenOPCPart {Node : Type} (env : Env Node) (d : Docx)
    (partPathEndinWith : String) : Outcome (List String × GoMap) :=
  match getCustomXMLRelationshipIDs env d with
  | .error e => .error e
  | .panic v => .panic v
  | .ok (relationshipIDMap, relationshipElementMap) =>
    .ok ((env.rangeOrder relationshipIDMap).foldl
      (fun (acc : List String × GoMap) (e : String × String) =>
        if hasSuffix e.2 partPathEndinWith then (acc.1 ++ [e.1], acc.2)
        else (acc.1, acc.2.delete e.1))
      ([], relationshipElementMap))

/-- The XPath that `docReferencesRelsIds` builds from the ids. -/
def referencesXPath (relIds : List String) : String :=
  trimSuffix
    (relIds.foldl
      (fun xpath val =>
        xpath ++ ("(local-name()='id' and namespace-uri()='" ++ iso29500RelationshipsNS ++
          "' and .='" ++ val ++ "')or"))
      "//@*[")
    "or" ++ "]"

/-- The function `docReferencesRelsIds`. The XPath built from the ids is not the
one that is evaluated. A panic of the evaluator is not recovered here. -/
def docReferencesRelsIds {Node : Type} (env : Env Node) (d : Docx) (relIds : List String) :
    Outcome Bool :=
  if relIds.length = 0 then .ok false
  else
    match env.Parse d.content with
    | .error parseErr => .error (.libraryError parseErr)
    | .ok parsedDoc =>
      let _xpath := referencesXPath relIds
      match env.Find parsedDoc retrieveDocumentRelationshipsXPath with
      | .error r => .panic r
      | .ok list => if list.length > 0 then .ok true else .ok false

/-! ## `RemoveCustomXML` -/

/-- The last loop of `RemoveCustomXML`: the first part with the given name is
overwritten by the last part and the list is shortened by one. -/
def removeFile (files : List ZipFile) (path : String) : List ZipFile :=
  match files.findIdx? (fun f => f.Name == path), files.getLast? with
  | some index, some last => (files.set index last).dropLast
  | _, _ => files

/-- The function `RemoveCustomXML`: the package after the call and the result. The
deferred `revertOnError` receives the value that `err` has when the `defer`
statement runs, which is nil. -/
def RemoveCustomXML {Node : Type} (env : Env Node) (d : Docx) (path : String) : Docx × Ret :=
  match d.customXML.get? path with
  | none => (d, .error (.NoCustomXmlPartError "no customXml Part is found for the given path"))
  | some _ =>
    match relationshipIdsToGivenOPCPart env d path with
    | .error e => (d, .error e)
    | .panic v => (d, .panic v)
    | .ok (relsIdMap, relsElemMap) =>
      if relsIdMap.length > 0 then
        match docReferencesRelsIds env d relsIdMap with
        | .error e => (d, .error e)
        | .panic v => (d, .panic v)
        | .ok true =>
          (d, .error (.ExistingRelationshipsError
            ("At least an existing relationships was found to the customXmlPart of path '"
              ++ path ++ "' ")))
        | .ok false =>
          let backup := d.links
          let deferredErr : Option GoError := none
          let arrayOfElements := (env.rangeOrder relsElemMap).map Prod.snd
          match env.Parse d.links with
          | .error parseErr =>
            ({ d with links := revertOnError backup d.links deferredErr },
              .error (.libraryError parseErr))
          | .ok parsedRelationships =>
            let links1 := env.OutputXML parsedRelationships false
            match remove links1 arrayOfElements with
            | (links2, some err) =>
              ({ d with links := revertOnError backup links2 deferredErr }, .error err)
            | (links2, none) =>
              ({ d with links := revertOnError backup links2 deferredErr,
                        files := removeFile d.files path }, .nil)
      else
        ({ d with files := removeFile d.files path }, .nil)

/-! ## `GetCustomXMLByRootNs` -/

/-- The value that `recover` yields, printed with `%s`, after a nil pointer was
dereferenced. -/
def nilDereference : String :=
  "runtime error: invalid memory address or nil pointer dereference"

/-- The loop of `GetCustomXMLByRootNs` over the paths of the custom-data map, and the
return that follows it. The result is the returned map (nil is the empty list) and
the returned error. Reading a field of a nil `FirstChild` or `LastChild` panics;
the deferred function recovers, sets the error and the map built so far is
returned. -/
def rootNsLoop {Node : Type} (env : Env Node) (d : Docx) (rootNS : String) :
    List (String × String) → GoMap → GoMap × Option GoError
  | [], customXmlmap =>
    if customXmlmap.length = 0 then ([], none) else (customXmlmap, none)
  | (path, _) :: rest, customXmlmap =>
    let content := (d.customXML.get? path).getD ""
    match env.Parse content with
    | .error parseErr => ([], some (.libraryError parseErr))
    | .ok documentRelsContent =>
      match env.FirstChild documentRelsContent with
      | none => (customXmlmap, some (.errorString ("recovered from error : " ++ nilDereference)))
      | some first =>
        if env.nodeType first = NodeType.DeclarationNode then
          match env.LastChild documentRelsContent with
          | none =>
            (customXmlmap, some (.errorString ("recovered from error : " ++ nilDereference)))
          | some last =>
            if env.NamespaceURI last = rootNS then
              rootNsLoop env d rootNS rest (customXmlmap.set path content)
            else rootNsLoop env d rootNS rest customXmlmap
        else rootNsLoop env d rootNS rest customXmlmap

/-- The function `GetCustomXMLByRootNs`. -/
def GetCustomXMLByRootNs {Node : Type} (env : Env Node) (d : Docx) (rootNS : String) :
    GoMap × Option GoError :=
  rootNsLoop env d rootNS (env.rangeOrder d.customXML) []

/-! ## `RemoveElementsFromMainDocument` -/

/-- The loop of `RemoveElementsFromMainDocument` over the matched nodes. -/
def collectRemovals {Node : Type} (env : Env Node) (elementXpath : String) :
    List Node → List String → Outcome (List String)
  | [], removalArray => .ok removalArray
  | e :: rest, removalArray =>
    if env.nodeType e ≠ NodeType.ElementNode then
      .error (.NoCustomXmlPartError
        ("Expected Element Nodes for given Xpath '" ++ elementXpath ++ "' but found '"
          ++ getXMLNodeType (env.nodeType e) ++ "' "))
    else collectRemovals env elementXpath rest (removalArray ++ [env.OutputXML e true])

/-- The function `RemoveElementsFromMainDocument`: the package after the call and
the result. A panic of the evaluator is recovered into an error. -/
def RemoveElementsFromMainDocument {Node : Type} (env : Env Node) (d : Docx)
    (elementXpath : String) : Docx × Ret :=
  match env.Parse d.content with
  | .error parseErr => (d, .error (.libraryError parseErr))
  | .ok parsedDocumentContent =>
    match env.Find parsedDocumentContent elementXpath with
    | .error r => (d, .error (.errorString ("Recovered from XPath error :" ++ r)))
    | .ok elems =>
      if elems.length = 0 then
        (d, .error (.errorString ("No elements found at " ++ elementXpath)))
      else
        match collectRemovals env elementXpath elems [] with
        | .error e => (d, .error e)
        | .panic v => (d, .panic v)
        | .ok removalArray =>
          match remove (env.OutputXML parsedDocumentContent false) removalArray with
          | (content, some err) => ({ d with content := content }, .error err)
          | (content, none) => ({ d with content := content }, .nil)

/-- The test that the loop of `GetCustomXMLByRootNs` applies to the content of one
part, for a content whose document has a first and a last child: the first child is
a declaration node and the namespace of the last child is the given one. -/
def keepsPart {Node : Type} (env : Env Node) (rootNS content : String) : Bool :=
  match env.Parse content with
  | .error _ => false
  | .ok documentRelsContent =>
    match env.FirstChild documentRelsContent, env.LastChild documentRelsContent with
    | some first, some last =>
      env.nodeType first == NodeType.DeclarationNode && env.NamespaceURI last == rootNS
    | _, _ => false

/-! ## Texts laid out in segments -/

/-- The texts `lits` occur in the concatenation of the segments `segs` only in
place: wherever a non-empty one of them starts, a segment starts, and that segment
is this text. -/
def OccursInPlace (lits segs : List String) : Prop :=
  ∀ A s B, segs = A ++ s :: B → ∀ u v : List Char, s.data = u ++ v → v ≠ [] →
    ∀ l ∈ lits, l ≠ "" → l.data <+: v ++ (String.join B).data → u = [] ∧ l = s

/-! ## A reference environment

A concrete library for closed statements: nodes carry their serialized text, the
parser knows a finite set of documents, and the evaluator answers the fixed
relationships query and the reference query for the id `rId1`. Maps are visited
in insertion order. -/

/-- An attribute of a parsed element: prefix, local name, value, namespace. -/
structure SAttr where
  space : String
  name : String
  value : String
  NamespaceURI : String

/-- A parsed node: kind, local name, namespace, attributes, the text that
`OutputXML(true)` gives for it, and the child nodes. -/
inductive SNode where
  | mk (kind : NodeType) (Data : String) (NamespaceURI : String) (Attr : List SAttr)
      (outer : String) (children : List SNode)

def SNode.kind : SNode → NodeType
  | .mk k _ _ _ _ _ => k

def SNode.Data : SNode → String
  | .mk _ d _ _ _ _ => d

def SNode.NamespaceURI : SNode → String
  | .mk _ _ ns _ _ _ => ns

def SNode.Attr : SNode → List SAttr
  | .mk _ _ _ as _ _ => as

def SNode.outer : SNode → String
  | .mk _ _ _ _ o _ => o

def SNode.children : SNode → List SNode
  | .mk _ _ _ _ _ cs => cs

/-- The text of `OutputXML`: the node itself, or its children only. -/
def SNode.OutputXML (n : SNode) (self : Bool) : String :=
  if self then n.outer else String.join (n.children.map SNode.outer)

/-- The value of the attribute with the given name, `""` when there is none. A
name `p:l` asks for the local name `l` with the prefix `p`. -/
def SNode.SelectAttr (n : SNode) (name : String) : String :=
  let i := name.data.indexOf ':'
  let key : String × String :=
    if 0 < i ∧ i < name.data.length then (⟨name.data.take i⟩, ⟨name.data.drop (i + 1)⟩)
    else ("", name)
  match n.Attr.find? (fun a => a.name == key.2 && a.space == key.1) with
  | some a => a.value
  | none => ""

/-- The text of an attribute list inside a start tag. -/
def attrText (as : List SAttr) : String :=
  String.join (as.map (fun a =>
    (if a.space = "" then " " ++ a.name else " " ++ a.space ++ ":" ++ a.name)
      ++ "=\"" ++ a.value ++ "\""))

/-- An element node with its serialized text, start tag, children, end tag. -/
def element (pfx name ns : String) (as : List SAttr) (children : List SNode) : SNode :=
  let qname := if pfx = "" then name else pfx ++ ":" ++ name
  .mk .ElementNode name ns as
    ("<" ++ qname ++ attrText as ++ ">" ++ String.join (children.map SNode.outer)
      ++ "</" ++ qname ++ ">")
    children

/-- The XML declaration node. -/
def declaration : SNode :=
  .mk .DeclarationNode "xml" ""
    [⟨"", "version", "1.0", ""⟩, ⟨"", "encoding", "UTF-8", ""⟩, ⟨"", "standalone", "yes", ""⟩]
    "<?xml version=\"1.0\" encoding=\"UTF-8\" standalone=\"yes\"?>" []

/-- A document node: the declaration followed by the root element. -/
def document (root : SNode) : SNode :=
  .mk .DocumentNode "" "" [] "" [declaration, root]

/-- A `Relationship` element of the relationships part. -/
def relationship (id type target : String) : SNode :=
  element "" "Relationship" documentRelsNS
    [⟨"", "Id", id, ""⟩, ⟨"", "Type", type, ""⟩, ⟨"", "Target", target, ""⟩] []

/-- A relationships document with the given `Relationship` elements. -/
def relationshipsDocument (rels : List SNode) : SNode :=
  document (element "" "Relationships" documentRelsNS [⟨"", "xmlns", documentRelsNS, ""⟩] rels)

def rel1 : SNode := relationship "rId1" "customXml" "../customXml/item1.xml"

def rel2 : SNode := relationship "rId2" "styles" "styles.xml"

def wordprocessingmlNS : String :=
  "http://schemas.openxmlformats.org/wordprocessingml/2006/main"

/-- A main document with one paragraph that carries the given attributes. -/
def mainDocument (paragraphAttrs : List SAttr) : SNode :=
  document (element "w" "document" wordprocessingmlNS
    [⟨"xmlns", "w", wordprocessingmlNS, "xmlns"⟩, ⟨"xmlns", "r", iso29500RelationshipsNS, "xmlns"⟩]
    [element "w" "body" wordprocessingmlNS []
      [element "w" "p" wordprocessingmlNS paragraphAttrs []]])

/-- The main document whose paragraph cites the relationship `rId1`. -/
def citingDocument : SNode :=
  mainDocument [⟨"r", "id", "rId1", iso29500RelationshipsNS⟩]

/-- The main document without any relationship reference. -/
def plainDocument : SNode :=
  mainDocument []

/-- The relationships part as authored, with self-closing elements. -/
def authoredLinks : String :=
  "<?xml version=\"1.0\" encoding=\"UTF-8\" standalone=\"yes\"?>" ++
  "<Relationships xmlns=\"http://schemas.openxmlformats.org/package/2006/relationships\">" ++
  "<Relationship Id=\"rId1\" Type=\"customXml\" Target=\"../customXml/item1.xml\"/>" ++
  "<Relationship Id=\"rId2\" Type=\"styles\" Target=\"styles.xml\"/>" ++
  "</Relationships>"

/-- The documents the reference parser knows, each with its text. -/
def knownDocuments : List (String × SNode) :=
  (authoredLinks, relationshipsDocument [rel1, rel2]) ::
    [relationshipsDocument [rel1, rel2], relationshipsDocument [rel2],
      relationshipsDocument [rel1], relationshipsDocument [],
      citingDocument, plainDocument].map (fun t => (t.OutputXML false, t))

def referenceParse (s : String) : Except String SNode :=
  match knownDocuments.find? (fun e => e.1 == s) with
  | some e => .ok e.2
  | none => .error "XML syntax error"

/-- The fixed relationships query: the `Relationship` children of a `Relationships`
root, both in the package relationships namespace. -/
def relationshipElements (doc : SNode) : List SNode :=
  (doc.children.filter (fun r =>
      r.kind == NodeType.ElementNode && r.Data == "Relationships"
        && r.NamespaceURI == documentRelsNS)).flatMap
    (fun r => r.children.filter (fun c =>
      c.kind == NodeType.ElementNode && c.Data == "Relationship"
        && c.NamespaceURI == documentRelsNS))

/-- The nodes of a tree down to the given depth. -/
def descendants : Nat → SNode → List SNode
  | 0, n => [n]
  | k + 1, n => n :: n.children.flatMap (descendants k)

/-- The reference query: the attributes named `id` in the relationships namespace
of the office document whose value is one of the ids, as attribute nodes. -/
def citingAttributes (ids : List String) (doc : SNode) : List SNode :=
  (descendants 8 doc).flatMap (fun n =>
    (n.Attr.filter (fun a =>
      a.name == "id" && a.NamespaceURI == iso29500RelationshipsNS && ids.contains a.value)).map
      (fun a => SNode.mk .AttributeNode a.name a.NamespaceURI [] "" []))

def referenceFind (n : SNode) (xpath : String) : Except String (List SNode) :=
  if xpath = retrieveDocumentRelationshipsXPath then .ok (relationshipElements n)
  else if xpath = referencesXPath ["rId1"] then .ok (citingAttributes ["rId1"] n)
  else .error "expression not supported"

/-- The reference environment. -/
def referenceEnv : Env SNode where
  Parse := referenceParse
  Find := referenceFind
  OutputXML := SNode.OutputXML
  SelectAttr := SNode.SelectAttr
  nodeType := SNode.kind
  NamespaceURI := SNode.NamespaceURI
  FirstChild := fun n => n.children.head?
  LastChild := fun n => n.children.getLast?
  rangeOrder := fun m => m
  rangeOrder_perm := fun m => List.Perm.refl m

/-- A package with the custom-data part `customXml/item1.xml`, the authored
relationships part and the given main document. -/
def packageWith (content : String) : Docx where
  files := [⟨"word/document.xml", content⟩, ⟨"customXml/item1.xml", "<data></data>"⟩,
    ⟨"word/styles.xml", "<styles></styles>"⟩]
  content := content
  links := authoredLinks
  customXML := [("customXml/item1.xml", "<data></data>")]

/-- The package whose main document cites the relationship `rId1`. -/
def citingPackage : Docx := packageWith (citingDocument.OutputXML false)

/-- The package whose main document has no relationship reference. -/
def plainPackage : Docx := packageWith (plainDocument.OutputXML false)

/-! ## The reference environment, extended

More documents and more queries for the closed statements on
`RemoveElementsFromMainDocument`, `GetCustomXMLByRootNs` and the suffix test. -/

/-- A text node. -/
def textNode (s : String) : SNode :=
  .mk .TextNode s "" [] s []

/-- A paragraph element with the given attributes and children. -/
def paragraph (as : List SAttr) (children : List SNode) : SNode :=
  element "w" "p" wordprocessingmlNS as children

/-- A main document whose body holds the given elements. -/
def bodyDocument (content : List SNode) : SNode :=
  document (element "w" "document" wordprocessingmlNS
    [⟨"xmlns", "w", wordprocessingmlNS, "xmlns"⟩, ⟨"xmlns", "r", iso29500RelationshipsNS, "xmlns"⟩]
    [element "w" "body" wordprocessingmlNS [] content])

def paragraphA : SNode := paragraph [⟨"w", "rsidR", "A1", wordprocessingmlNS⟩] []

def paragraphB : SNode := paragraph [⟨"w", "rsidR", "B2", wordprocessingmlNS⟩] []

def paragraphC : SNode := paragraph [⟨"w", "rsidR", "C3", wordprocessingmlNS⟩] []

/-- The section properties element that ends a body. -/
def sectPr : SNode := element "w" "sectPr" wordprocessingmlNS [] []

/-- A body with three sibling paragraphs followed by the section properties. -/
def threeParagraphs : SNode := bodyDocument [paragraphA, paragraphB, paragraphC, sectPr]

/-- A body with two paragraphs of identical text followed by the section
properties. -/
def twinParagraphs : SNode := bodyDocument [paragraph [] [], paragraph [] [], sectPr]

/-- A body with one paragraph that holds a text node. -/
def textParagraph : SNode := bodyDocument [paragraph [] [textNode "x"]]

/-- A custom-data part with an XML declaration and a root in the namespace `urn:x`. -/
def declaredPart : SNode :=
  document (element "" "data" "urn:x" [⟨"", "xmlns", "urn:x", ""⟩] [])

/-- The root element of a custom-data part in the namespace `urn:x`. -/
def bareRoot : SNode := element "" "data" "urn:x" [⟨"", "xmlns", "urn:x", ""⟩] []

/-- The declaration node that the parser puts in front of a document whose text has
no XML declaration. -/
def impliedDeclaration : SNode :=
  .mk .DeclarationNode "xml" "" [⟨"", "version", "1.0", ""⟩] "<?xml version=\"1.0\"?>" []

/-- The text of the custom-data part without XML declaration. -/
def bareText : String := bareRoot.outer

/-- The document that the parser yields for `bareText`: the implied declaration
node, then the root element. -/
def barePart : SNode :=
  .mk .DocumentNode "" "" [] "" [impliedDeclaration, bareRoot]

/-- The custom-data part with an XML declaration and a newline after the root
element: the newline is a text node, the last child of the document. -/
def trailingPart : SNode :=
  .mk .DocumentNode "" "" [] "" [declaration, bareRoot, textNode "\n"]

/-- A relationship whose target ends with `customXml/item1.xml` as a string, in
another directory. -/
def rel3 : SNode := relationship "rId3" "customXml" "zcustomXml/item1.xml"

/-- The further documents the extended parser knows, each with its text. -/
def furtherDocuments : List (String × SNode) :=
  (bareText, barePart) ::
    [threeParagraphs, bodyDocument [sectPr], twinParagraphs,
      bodyDocument [paragraph [] [], sectPr], textParagraph, declaredPart, trailingPart,
      relationshipsDocument [rel3]].map (fun t => (t.OutputXML false, t))

def extendedParse (s : String) : Except String SNode :=
  match furtherDocuments.find? (fun e => e.1 == s) with
  | some e => .ok e.2
  | none => referenceParse s

/-- The query of the repository test for paragraphs. -/
def paragraphsXPath : String :=
  "//*[local-name()='p' and namespace-uri()='" ++ wordprocessingmlNS ++ "']"

/-- The answer to `/*/*/*[1]`: the first element child of every element child of
the root element. -/
def firstGrandchildren (doc : SNode) : List SNode :=
  ((doc.children.filter (fun r => r.kind == NodeType.ElementNode)).flatMap
    (fun r => r.children.filter (fun b => b.kind == NodeType.ElementNode))).flatMap
    (fun b => (b.children.filter (fun c => c.kind == NodeType.ElementNode)).take 1)

def extendedFind (n : SNode) (xpath : String) : Except String (List SNode) :=
  if xpath = paragraphsXPath then
    .ok ((descendants 8 n).filter (fun e =>
      e.kind == NodeType.ElementNode && e.Data == "p" && e.NamespaceURI == wordprocessingmlNS))
  else if xpath = "/something" then
    .ok (n.children.filter (fun e =>
      e.kind == NodeType.ElementNode && e.Data == "something" && e.NamespaceURI == ""))
  else if xpath = "//text()" then
    .ok ((descendants 8 n).filter (fun e => e.kind == NodeType.TextNode))
  else if xpath = "/*/*/*[1]" then .ok (firstGrandchildren n)
  else referenceFind n xpath

/-- The extended reference environment. -/
def extendedEnv : Env SNode :=
  { referenceEnv with Parse := extendedParse, Find := extendedFind }

/-- A package with the given main document and custom-data map. -/
def packageOf (doc : SNode) (customXML : GoMap) : Docx where
  files := ⟨"word/document.xml", doc.OutputXML false⟩ ::
    customXML.map (fun e => ⟨e.1, e.2⟩)
  content := doc.OutputXML false
  links := authoredLinks
  customXML := customXML

/-- The package whose only relationship targets `zcustomXml/item1.xml`. -/
def strayTargetPackage : Docx :=
  { plainPackage with links := (relationshipsDocument [rel3]).OutputXML false }

/-- A package whose main document content is a relationships document. -/
def relationshipsAsContent : Docx :=
  { plainPackage with content := authoredLinks }

/-- The package whose main document has three sibling paragraphs. -/
def threeParagraphsPackage : Docx := packageOf threeParagraphs []

/-- The package whose main document has two paragraphs of identical text. -/
def twinPackage : Docx := packageOf twinParagraphs []

/-- The package whose main document has a paragraph with a text node. -/
def textPackage : Docx := packageOf textParagraph []

/-- A package with three custom-data parts whose root is in the namespace `urn:x`:
the first starts with an XML declaration, the second has none, the third has a
declaration and ends with a newline. -/
def partsPackage : Docx :=
  packageOf plainDocument
    [("customXml/item1.xml", declaredPart.OutputXML false),
      ("customXml/item2.xml", bareText),
      ("customXml/item3.xml", trailingPart.OutputXML false)]

/-- The normalized relationships text up to the first `Relationship` element. -/
def relationshipsOpen : String :=
  declaration.outer ++ "<Relationships xmlns=\"" ++ documentRelsNS ++ "\">"

/-- The normalized relationships text after the last `Relationship` element. -/
def relationshipsClose : String := "</Relationships>"

/-- The normalized main document text up to the first element of the body. -/
def bodyOpen : String :=
  declaration.outer ++ "<w:document xmlns:w=\"" ++ wordprocessingmlNS ++ "\" xmlns:r=\""
    ++ iso29500RelationshipsNS ++ "\"><w:body>"

/-- The normalized main document text after the last element of the body. -/
def bodyClose : String := "</w:body></w:document>"

set_option maxRecDepth 1000000

/-! ## Lemmas on the replacer -/

theorem firstMatch_some {olds : List (List Char)} {s o : List Char}
    (h : firstMatch olds s = some o) : o ∈ olds ∧ o ≠ [] ∧ o <+: s := by
  unfold firstMatch at h
  have hm := List.mem_of_find?_eq_some h
  have hp := List.find?_some h
  simp only [Bool.and_eq_true, Bool.not_eq_true', List.isEmpty_eq_false,
    List.isPrefixOf_iff_prefix] at hp
  exact ⟨hm, hp.1, hp.2⟩

theorem firstMatch_none {olds : List (List Char)} {s : List Char} :
    firstMatch olds s = none ↔ ∀ o ∈ olds, o ≠ [] → ¬ o <+: s := by
  unfold firstMatch
  rw [List.find?_eq_none]
  constructor
  · intro h o ho hne hpre
    apply h o ho
    simp only [Bool.and_eq_true, Bool.not_eq_true', List.isEmpty_eq_false,
      List.isPrefixOf_iff_prefix]
    exact ⟨hne, hpre⟩
  · intro h o ho hp
    simp only [Bool.and_eq_true, Bool.not_eq_true', List.isEmpty_eq_false,
      List.isPrefixOf_iff_prefix] at hp
    exact h o ho hp.1 hp.2

theorem replaceFrom_skip (olds : List (List Char)) (s : List Char) (k : Nat) :
    replaceFrom olds k s = replaceFrom olds 0 (s.drop k) := by
  induction s generalizing k with
  | nil => cases k <;> simp [replaceFrom]
  | cons c cs ih =>
    cases k with
    | zero => simp
    | succ k => simp [replaceFrom, ih k]

theorem replaceFrom_cons_some {olds : List (List Char)} {c : Char} {cs o : List Char}
    (h : firstMatch olds (c :: cs) = some o) :
    replaceFrom olds 0 (c :: cs) = replaceFrom olds 0 ((c :: cs).drop o.length) := by
  obtain ⟨_, hne, _⟩ := firstMatch_some h
  obtain ⟨x, xs, rfl⟩ := List.exists_cons_of_ne_nil hne
  simp only [replaceFrom, h, List.length_cons, Nat.add_sub_cancel, List.drop_succ_cons]
  exact replaceFrom_skip olds cs xs.length

theorem replaceFrom_cons_none {olds : List (List Char)} {c : Char} {cs : List Char}
    (h : firstMatch olds (c :: cs) = none) :
    replaceFrom olds 0 (c :: cs) = c :: replaceFrom olds 0 cs := by
  simp only [replaceFrom, h]

theorem replaceFrom_length_le (olds : List (List Char)) (s : List Char) (k : Nat) :
    (replaceFrom olds k s).length ≤ s.length := by
  induction s generalizing k with
  | nil => cases k <;> simp [replaceFrom]
  | cons c cs ih =>
    cases k with
    | succ k =>
      simp only [replaceFrom, List.length_cons]
      exact Nat.le_succ_of_le (ih k)
    | zero =>
      simp only [replaceFrom]
      cases hfm : firstMatch olds (c :: cs) with
      | none => simp only [List.length_cons]; exact Nat.succ_le_succ (ih 0)
      | some o => simp only [List.length_cons]; exact Nat.le_succ_of_le (ih _)

/-- Where no old string occurs, the scan copies the input. -/
theorem replaceFrom_eq_self {olds : List (List Char)} {s : List Char}
    (h : ∀ o ∈ olds, o ≠ [] → ¬ o <:+: s) : replaceFrom olds 0 s = s := by
  induction s with
  | nil => simp [replaceFrom]
  | cons c cs ih =>
    have hnone : firstMatch olds (c :: cs) = none :=
      firstMatch_none.2 (fun o ho hne hpre => h o ho hne hpre.isInfix)
    rw [replaceFrom_cons_none hnone, ih]
    intro o ho hne hin
    exact h o ho hne (List.infix_cons hin)

/-- Where an old string occurs, the scan makes the input shorter. -/
theorem replaceFrom_length_lt {olds : List (List Char)} {s o : List Char}
    (ho : o ∈ olds) (hne : o ≠ []) (hin : o <:+: s) :
    (replaceFrom olds 0 s).length < s.length := by
  induction s with
  | nil =>
    exact absurd (List.eq_nil_of_infix_nil hin) hne
  | cons c cs ih =>
    cases hfm : firstMatch olds (c :: cs) with
    | some m =>
      obtain ⟨_, hmne, _⟩ := firstMatch_some hfm
      obtain ⟨x, xs, rfl⟩ := List.exists_cons_of_ne_nil hmne
      rw [replaceFrom_cons_some hfm]
      have := replaceFrom_length_le olds ((c :: cs).drop (x :: xs).length) 0
      simp only [List.length_cons, List.drop_succ_cons, List.length_drop] at this ⊢
      omega
    | none =>
      rw [replaceFrom_cons_none hfm]
      have hnp : ¬ o <+: c :: cs := firstMatch_none.1 hfm o ho hne
      rcases List.infix_cons_iff.1 hin with hp | hi
      · exact absurd hp hnp
      · simp only [List.length_cons]
        exact Nat.succ_lt_succ (ih hi)

/-- The scan cuts the input into pieces, some of which are dropped; each dropped
piece is one of the old strings. -/
theorem replaceFrom_pieces (olds : List (List Char)) (s : List Char) :
    ∃ pieces : List (Bool × List Char),
      (pieces.map Prod.snd).flatten = s ∧
      ((pieces.filter (fun p => !p.1)).map Prod.snd).flatten = replaceFrom olds 0 s ∧
      ∀ p ∈ pieces, p.1 = true → p.2 ∈ olds := by
  suffices H : ∀ (n : Nat) (s : List Char), s.length = n →
      ∃ pieces : List (Bool × List Char),
        (pieces.map Prod.snd).flatten = s ∧
        ((pieces.filter (fun p => !p.1)).map Prod.snd).flatten = replaceFrom olds 0 s ∧
        ∀ p ∈ pieces, p.1 = true → p.2 ∈ olds from H _ s rfl
  intro n
  induction n using Nat.strong_induction_on with
  | _ n ih =>
    intro s hn
    cases s with
    | nil => exact ⟨[], by simp [replaceFrom]⟩
    | cons c cs =>
      cases hfm : firstMatch olds (c :: cs) with
      | some m =>
        obtain ⟨hmem, hmne, hpre⟩ := firstMatch_some hfm
        obtain ⟨x, xs, rfl⟩ := List.exists_cons_of_ne_nil hmne
        have hlen : ((c :: cs).drop (x :: xs).length).length < n := by
          rw [← hn]; simp only [List.length_cons, List.drop_succ_cons, List.length_drop]; omega
        obtain ⟨ps, h1, h2, h3⟩ := ih _ hlen _ rfl
        refine ⟨(true, x :: xs) :: ps, ?_, ?_, ?_⟩
        · simp only [List.map_cons, List.flatten_cons, h1]
          exact List.prefix_iff_eq_append.1 hpre
        · rw [replaceFrom_cons_some hfm, ← h2]
          simp
        · intro p hp hp1
          rcases List.mem_cons.1 hp with rfl | hp
          · exact hmem
          · exact h3 p hp hp1
      | none =>
        have hlen : cs.length < n := by rw [← hn]; simp
        obtain ⟨ps, h1, h2, h3⟩ := ih _ hlen _ rfl
        refine ⟨(false, [c]) :: ps, ?_, ?_, ?_⟩
        · simp [h1]
        · rw [replaceFrom_cons_none hfm, ← h2]
          simp
        · intro p hp hp1
          rcases List.mem_cons.1 hp with rfl | hp
          · simp at hp1
          · exact h3 p hp hp1

theorem replaceFrom_congr {A B : List (List Char)}
    (h : ∀ s, firstMatch A s = firstMatch B s) (k : Nat) (s : List Char) :
    replaceFrom A k s = replaceFrom B k s := by
  induction s generalizing k with
  | nil => cases k <;> simp [replaceFrom]
  | cons c cs ih =>
    cases k with
    | succ k => simp only [replaceFrom]; exact ih k
    | zero =>
      simp only [replaceFrom, h (c :: cs)]
      cases firstMatch B (c :: cs) with
      | none => simp only [ih 0]
      | some o => exact ih _

/-- The lookup depends only on the set of old strings, as long as two distinct
non-empty old strings never start the same text. -/
theorem firstMatch_eq_of_mem_iff {A B : List (List Char)} (hAB : ∀ o, o ∈ A ↔ o ∈ B)
    (hA : ∀ a ∈ A, ∀ b ∈ A, a ≠ [] → b ≠ [] → ∀ t, a <+: t → b <+: t → a = b)
    (t : List Char) : firstMatch A t = firstMatch B t := by
  cases h1 : firstMatch A t with
  | none =>
    cases h2 : firstMatch B t with
    | none => rfl
    | some o =>
      obtain ⟨hm, hne, hp⟩ := firstMatch_some h2
      exact absurd hp (firstMatch_none.1 h1 o ((hAB o).2 hm) hne)
  | some o1 =>
    obtain ⟨hm1, hne1, hp1⟩ := firstMatch_some h1
    cases h2 : firstMatch B t with
    | none => exact absurd hp1 (firstMatch_none.1 h2 o1 ((hAB o1).1 hm1) hne1)
    | some o2 =>
      obtain ⟨hm2, hne2, hp2⟩ := firstMatch_some h2
      rw [hA o1 hm1 o2 ((hAB o2).2 hm2) hne1 hne2 t hp1 hp2]

theorem firstMatch_perm_eq {A B : List (List Char)} (hAB : ∀ o, o ∈ A ↔ o ∈ B)
    (hA : ∀ a ∈ A, ∀ b ∈ A, a ≠ b → ¬ ∃ w : List Char, w ≠ [] ∧ w <:+: a ∧ w <:+: b)
    (t : List Char) : firstMatch A t = firstMatch B t := by
  apply firstMatch_eq_of_mem_iff hAB
  intro a ha b hb hne1 hne2 t hp1 hp2
  by_contra heq
  obtain ⟨x, xs, rfl⟩ := List.exists_cons_of_ne_nil hne1
  obtain ⟨y, ys, rfl⟩ := List.exists_cons_of_ne_nil hne2
  obtain ⟨r1, hr1⟩ := hp1
  obtain ⟨r2, hr2⟩ := hp2
  have hxy : x = y := by
    rw [← hr2] at hr1
    simp only [List.cons_append, List.cons.injEq] at hr1
    exact hr1.1
  subst hxy
  apply hA _ ha _ hb heq
  refine ⟨[x], by simp, ?_, ?_⟩
  · exact ⟨[], xs, by simp⟩
  · exact ⟨[], ys, by simp⟩

/-- Two strings without a common character have no common non-empty substring. -/
theorem no_common_substring_of_disjoint {a b : List Char} (h : ∀ c ∈ a, c ∉ b) :
    ¬ ∃ w : List Char, w ≠ [] ∧ w <:+: a ∧ w <:+: b := by
  rintro ⟨w, hne, ha, hb⟩
  obtain ⟨x, xs, rfl⟩ := List.exists_cons_of_ne_nil hne
  exact h x (ha.subset (List.mem_cons_self x xs)) (hb.subset (List.mem_cons_self x xs))

/-- Where no non-empty literal occurs in the source, `remove` returns the source. -/
theorem remove_eq_self {inputString : String} {toBeRemoved : List String}
    (h : ∀ l ∈ toBeRemoved, l ≠ "" → ¬ l.data <:+: inputString.data) :
    (remove inputString toBeRemoved).1 = inputString := by
  apply String.ext
  show replaceFrom (toBeRemoved.map String.data) 0 inputString.data = inputString.data
  apply replaceFrom_eq_self
  intro o ho hne
  obtain ⟨l, hl, rfl⟩ := List.mem_map.1 ho
  exact h l hl (fun hl0 => hne (by rw [hl0]))

/-! ## The replacer on a text laid out in segments -/

theorem foldl_append_data (l : List String) (acc : String) :
    (l.foldl (fun r s => r ++ s) acc).data = acc.data ++ (l.map String.data).flatten := by
  induction l generalizing acc with
  | nil => simp
  | cons s l ih => simp [List.foldl_cons, ih, String.data_append, List.append_assoc]

theorem join_data (l : List String) :
    (String.join l).data = (l.map String.data).flatten := by
  unfold String.join
  rw [foldl_append_data]
  rfl

theorem join_cons (s : String) (l : List String) :
    String.join (s :: l) = s ++ String.join l := by
  apply String.ext
  rw [join_data, String.data_append, join_data]
  rfl

/-- A stretch of text in which no old string starts is copied. -/
theorem replaceFrom_keep (olds : List (List Char)) (s rest : List Char)
    (h : ∀ u v, s = u ++ v → v ≠ [] → firstMatch olds (v ++ rest) = none) :
    replaceFrom olds 0 (s ++ rest) = s ++ replaceFrom olds 0 rest := by
  induction s with
  | nil => rfl
  | cons c s ih =>
    have hnone : firstMatch olds (c :: (s ++ rest)) = none :=
      h [] (c :: s) rfl (List.cons_ne_nil _ _)
    rw [List.cons_append, replaceFrom_cons_none hnone, ih]
    · rfl
    · intro u v huv hv
      exact h (c :: u) v (by rw [huv]; rfl) hv

/-- An old string that is matched is dropped whole. -/
theorem replaceFrom_drop (olds : List (List Char)) (s rest : List Char)
    (h : firstMatch olds (s ++ rest) = some s) :
    replaceFrom olds 0 (s ++ rest) = replaceFrom olds 0 rest := by
  obtain ⟨_, hne, _⟩ := firstMatch_some h
  obtain ⟨c, cs, rfl⟩ := List.exists_cons_of_ne_nil hne
  have h' : firstMatch olds (c :: (cs ++ rest)) = some (c :: cs) := h
  rw [List.cons_append, replaceFrom_cons_some h']
  simp

/-- On a text laid out in segments in which the literals occur only in place,
the replacer leaves out the segments that are literals and keeps the others. -/
theorem replaceFrom_inPlace (lits segs : List String) (h : OccursInPlace lits segs) :
    replaceFrom (lits.map String.data) 0 (String.join segs).data =
      (String.join (segs.filter (fun s => !lits.contains s))).data := by
  induction segs with
  | nil => simp [join_data, replaceFrom]
  | cons s B ih =>
    have hB : OccursInPlace lits B := by
      intro A t C hsplit u v huv hv l hl hlne hpre
      exact h (s :: A) t C (by rw [hsplit]; rfl) u v huv hv l hl hlne hpre
    have ihB := ih hB
    rw [join_cons, String.data_append]
    have hfm : ∀ u v, s.data = u ++ v → v ≠ [] → ∀ o,
        firstMatch (lits.map String.data) (v ++ (String.join B).data) = some o →
        u = [] ∧ o = s.data := by
      intro u v huv hv o ho
      obtain ⟨hm, hne, hp⟩ := firstMatch_some ho
      obtain ⟨l, hl, rfl⟩ := List.mem_map.1 hm
      have hlne : l ≠ "" := fun h0 => hne (by rw [h0])
      obtain ⟨hu, hls⟩ := h [] s B rfl u v huv hv l hl hlne hp
      exact ⟨hu, by rw [hls]⟩
    by_cases hmem : s ∈ lits
    · have hcont : lits.contains s = true := List.elem_iff.2 hmem
      rw [List.filter_cons_of_neg (by simp [hmem])]
      by_cases hs : s.data = []
      · rw [hs, List.nil_append]
        exact ihB
      · have hex : firstMatch (lits.map String.data) (s.data ++ (String.join B).data)
            = some s.data := by
          cases hfm' : firstMatch (lits.map String.data) (s.data ++ (String.join B).data) with
          | none =>
            exact absurd (List.prefix_append _ _)
              (firstMatch_none.1 hfm' s.data (List.mem_map.2 ⟨s, hmem, rfl⟩) hs)
          | some o =>
            rw [(hfm [] s.data rfl hs o hfm').2]
        rw [replaceFrom_drop _ _ _ hex]
        exact ihB
    · have hcont : lits.contains s = false := by
        rw [Bool.eq_false_iff]
        exact fun hc => hmem (List.elem_iff.1 hc)
      rw [List.filter_cons_of_pos (by simp [hmem]), join_cons, String.data_append, ← ihB]
      apply replaceFrom_keep
      intro u v huv hv
      cases hfm' : firstMatch (lits.map String.data) (v ++ (String.join B).data) with
      | none => rfl
      | some o =>
        exfalso
        obtain ⟨hm, _, _⟩ := firstMatch_some hfm'
        obtain ⟨l, hl, hlo⟩ := List.mem_map.1 hm
        have := (hfm u v huv hv o hfm').2
        rw [← hlo] at this
        exact hmem (String.ext this ▸ hl)

theorem occursInPlace_nil (lits : List String) : OccursInPlace lits [] := by
  intro A s B hsplit
  exact absurd hsplit (by simp)

/-- The condition on the first segment, checked offset by offset, and the
condition on the rest give the condition on the whole layout. -/
theorem occursInPlace_cons (lits : List String) (s : String) (B : List String)
    (hhead : ∀ k, k < s.data.length → ∀ l ∈ lits, l ≠ "" →
      l.data <+: s.data.drop k ++ (String.join B).data → k = 0 ∧ l = s)
    (htail : OccursInPlace lits B) : OccursInPlace lits (s :: B) := by
  intro A t C hsplit u v huv hv l hl hlne hpre
  cases A with
  | nil =>
    simp only [List.nil_append, List.cons.injEq] at hsplit
    obtain ⟨rfl, rfl⟩ := hsplit
    have hk : u.length < s.data.length := by
      rw [huv, List.length_append]
      have : 0 < v.length := List.length_pos.2 hv
      omega
    have hdrop : s.data.drop u.length = v := by
      rw [huv, List.drop_left]
    obtain ⟨h0, hls⟩ := hhead u.length hk l hl hlne (by rw [hdrop]; exact hpre)
    exact ⟨List.length_eq_zero.1 h0, hls⟩
  | cons a A =>
    simp only [List.cons_append, List.cons.injEq] at hsplit
    exact htail A t C hsplit.2 u v huv hv l hl hlne hpre

/-! ## The pieces of the scan, with the places where no old string starts -/

/-- The scan cuts the input into pieces, some of which are dropped; each dropped
piece is one of the old strings, and no non-empty old string starts inside a piece
that is kept. -/
theorem replaceFrom_pieces_full (olds : List (List Char)) (s : List Char) :
    ∃ pieces : List (Bool × List Char),
      (pieces.map Prod.snd).flatten = s ∧
      ((pieces.filter (fun p => !p.1)).map Prod.snd).flatten = replaceFrom olds 0 s ∧
      (∀ p ∈ pieces, p.1 = true → p.2 ∈ olds) ∧
      ∀ A p B, pieces = A ++ p :: B → p.1 = false → ∀ u v, p.2 = u ++ v → v ≠ [] →
        ∀ o ∈ olds, o ≠ [] → ¬ o <+: v ++ (B.map Prod.snd).flatten := by
  suffices H : ∀ (n : Nat) (s : List Char), s.length = n →
      ∃ pieces : List (Bool × List Char),
        (pieces.map Prod.snd).flatten = s ∧
        ((pieces.filter (fun p => !p.1)).map Prod.snd).flatten = replaceFrom olds 0 s ∧
        (∀ p ∈ pieces, p.1 = true → p.2 ∈ olds) ∧
        ∀ A p B, pieces = A ++ p :: B → p.1 = false → ∀ u v, p.2 = u ++ v → v ≠ [] →
          ∀ o ∈ olds, o ≠ [] → ¬ o <+: v ++ (B.map Prod.snd).flatten from H _ s rfl
  intro n
  induction n using Nat.strong_induction_on with
  | _ n ih =>
    intro s hn
    cases s with
    | nil =>
      refine ⟨[], by simp, by simp [replaceFrom], by simp, ?_⟩
      intro A p B hsplit
      exact absurd hsplit (by simp)
    | cons c cs =>
      cases hfm : firstMatch olds (c :: cs) with
      | some m =>
        obtain ⟨hmem, hmne, hpre⟩ := firstMatch_some hfm
        obtain ⟨x, xs, rfl⟩ := List.exists_cons_of_ne_nil hmne
        have hlen : ((c :: cs).drop (x :: xs).length).length < n := by
          rw [← hn]; simp only [List.length_cons, List.drop_succ_cons, List.length_drop]; omega
        obtain ⟨ps, h1, h2, h3, h4⟩ := ih _ hlen _ rfl
        refine ⟨(true, x :: xs) :: ps, ?_, ?_, ?_, ?_⟩
        · simp only [List.map_cons, List.flatten_cons, h1]
          exact List.prefix_iff_eq_append.1 hpre
        · rw [replaceFrom_cons_some hfm, ← h2]
          simp
        · intro p hp hp1
          rcases List.mem_cons.1 hp with rfl | hp
          · exact hmem
          · exact h3 p hp hp1
        · intro A p B hsplit hp1 u v huv hv o ho hone
          cases A with
          | nil =>
            simp only [List.nil_append, List.cons.injEq] at hsplit
            rw [← hsplit.1] at hp1
            exact absurd hp1 (by simp)
          | cons a A =>
            simp only [List.cons_append, List.cons.injEq] at hsplit
            exact h4 A p B hsplit.2 hp1 u v huv hv o ho hone
      | none =>
        have hlen : cs.length < n := by rw [← hn]; simp
        obtain ⟨ps, h1, h2, h3, h4⟩ := ih _ hlen _ rfl
        refine ⟨(false, [c]) :: ps, ?_, ?_, ?_, ?_⟩
        · simp [h1]
        · rw [replaceFrom_cons_none hfm, ← h2]
          simp
        · intro p hp hp1
          rcases List.mem_cons.1 hp with rfl | hp
          · simp at hp1
          · exact h3 p hp hp1
        · intro A p B hsplit hp1 u v huv hv o ho hone
          cases A with
          | nil =>
            simp only [List.nil_append, List.cons.injEq] at hsplit
            obtain ⟨hp, hB⟩ := hsplit
            subst hp
            subst hB
            have hv' : v = [c] ∧ u = [] := by
              cases u with
              | nil => exact ⟨by simpa using huv.symm, rfl⟩
              | cons a u =>
                simp only [List.cons_append, List.cons.injEq] at huv
                have : u ++ v = [] := huv.2.symm
                exact absurd (List.append_eq_nil.1 this).2 hv
            rw [hv'.1, h1]
            exact firstMatch_none.1 hfm o ho hone
          | cons a A =>
            simp only [List.cons_append, List.cons.injEq] at hsplit
            exact h4 A p B hsplit.2 hp1 u v huv hv o ho hone

/-- The pieces of the replacer, on strings: each dropped piece is a literal and no
non-empty literal starts inside a piece that is kept. -/
theorem replaceFrom_text_pieces (inputString : String) (toBeRemoved : List String) :
    ∃ pieces : List (Bool × String),
      (pieces.map (fun p => p.2.data)).flatten = inputString.data ∧
      ((pieces.filter (fun p => !p.1)).map (fun p => p.2.data)).flatten
        = replaceFrom (toBeRemoved.map String.data) 0 inputString.data ∧
      (∀ p ∈ pieces, p.1 = true → p.2 ∈ toBeRemoved) ∧
      ∀ A p B, pieces = A ++ p :: B → p.1 = false → ∀ u v, p.2.data = u ++ v → v ≠ [] →
        ∀ l ∈ toBeRemoved, l ≠ "" →
          ¬ l.data <+: v ++ (B.map (fun q => q.2.data)).flatten := by
  obtain ⟨ps, h1, h2, h3, h4⟩ :=
    replaceFrom_pieces_full (toBeRemoved.map String.data) inputString.data
  refine ⟨ps.map (fun p => (p.1, String.mk p.2)), ?_, ?_, ?_, ?_⟩
  · rw [List.map_map]
    exact h1
  · rw [List.filter_map, List.map_map]
    exact h2
  · intro p hp hp1
    obtain ⟨q, hq, rfl⟩ := List.mem_map.1 hp
    obtain ⟨l, hl, hlq⟩ := List.mem_map.1 (h3 q hq hp1)
    have : String.mk q.2 = l := String.ext hlq.symm
    simp only [this]
    exact hl
  · intro A p B hsplit hp1 u v huv hv l hl hlne
    obtain ⟨A', rest, hps, hA', hrest⟩ := List.map_eq_append_iff.1 hsplit
    obtain ⟨q, B', hrest', hq, hB'⟩ := List.map_eq_cons_iff.1 hrest
    subst hps hrest' hq hB'
    have hB : (List.map (fun q => q.2.data) (List.map (fun p => (p.1, String.mk p.2)) B')).flatten
        = (B'.map Prod.snd).flatten := by
      rw [List.map_map]
      rfl
    rw [hB]
    exact h4 A' q B' rfl hp1 u v huv hv l.data (List.mem_map.2 ⟨l, hl, rfl⟩)
      (fun h0 => hlne (String.ext h0))

/-! ## Lemmas on `RemoveCustomXML` -/

theorem revertOnError_none (backup targetData : String) :
    revertOnError backup targetData none = targetData := rfl

/-- A successful index lookup has parsed the relationships text. -/
theorem relationshipIds_ok_parse {Node : Type} {env : Env Node} {d : Docx} {path : String}
    {r : List String × GoMap} (h : relationshipIdsToGivenOPCPart env d path = .ok r) :
    ∃ root, env.Parse d.links = .ok root := by
  unfold relationshipIdsToGivenOPCPart getCustomXMLRelationshipIDs at h
  cases hp : env.Parse d.links with
  | error e => simp [hp] at h
  | ok root => exact ⟨root, rfl⟩

/-- The shape of a successful call of `RemoveCustomXML`. -/
theorem RemoveCustomXML_nil_inv {Node : Type} {env : Env Node} {d d' : Docx} {path : String}
    (h : RemoveCustomXML env d path = (d', Ret.nil)) :
    (∃ c, d.customXML.get? path = some c) ∧
    ∃ ids elems, relationshipIdsToGivenOPCPart env d path = .ok (ids, elems) ∧
      d'.files = removeFile d.files path ∧ d'.content = d.content ∧
      d'.customXML = d.customXML ∧
      ((ids = [] ∧ d'.links = d.links) ∨
        (ids ≠ [] ∧ docReferencesRelsIds env d ids = .ok false ∧
          ∃ root, env.Parse d.links = .ok root ∧
            d'.links =
              (remove (env.OutputXML root false) ((env.rangeOrder elems).map Prod.snd)).1)) := by
  unfold RemoveCustomXML at h
  cases hc : d.customXML.get? path with
  | none => simp [hc] at h
  | some c =>
    refine ⟨⟨c, rfl⟩, ?_⟩
    cases hr : relationshipIdsToGivenOPCPart env d path with
    | error e => simp [hc, hr] at h
    | panic v => simp [hc, hr] at h
    | ok r =>
      obtain ⟨ids, elems⟩ := r
      refine ⟨ids, elems, rfl, ?_⟩
      simp only [hc, hr] at h
      by_cases hlen : ids.length > 0
      · have hne : ids ≠ [] := List.ne_nil_of_length_pos hlen
        simp only [hlen, if_true] at h
        cases hdoc : docReferencesRelsIds env d ids with
        | error e => simp [hdoc] at h
        | panic v => simp [hdoc] at h
        | ok b =>
          cases b with
          | true => simp [hdoc] at h
          | false =>
            simp only [hdoc] at h
            cases hp : env.Parse d.links with
            | error e => simp [hp] at h
            | ok root =>
              simp only [hp, remove, revertOnError_none] at h
              have h1 := (Prod.mk.inj h).1
              subst h1
              exact ⟨rfl, rfl, rfl, Or.inr ⟨hne, rfl, root, rfl, rfl⟩⟩
      · have hnil : ids = [] := by
          cases ids with
          | nil => rfl
          | cons a as => simp at hlen
        simp only [hlen, if_false] at h
        have h1 := (Prod.mk.inj h).1
        subst h1
        exact ⟨rfl, rfl, rfl, Or.inl ⟨hnil, rfl⟩⟩

/-- A call of `RemoveCustomXML` that does not return nil leaves the package as it
was. -/
theorem RemoveCustomXML_fail_state {Node : Type} (env : Env Node) (d : Docx) (path : String)
    (h : (RemoveCustomXML env d path).2 ≠ Ret.nil) : (RemoveCustomXML env d path).1 = d := by
  unfold RemoveCustomXML at h ⊢
  cases hc : d.customXML.get? path with
  | none => simp
  | some c =>
    cases hr : relationshipIdsToGivenOPCPart env d path with
    | error e => simp
    | panic v => simp
    | ok r =>
      obtain ⟨ids, elems⟩ := r
      simp only [hc, hr] at h ⊢
      by_cases hlen : ids.length > 0
      · simp only [hlen, if_true] at h ⊢
        cases hdoc : docReferencesRelsIds env d ids with
        | error e => simp
        | panic v => simp
        | ok b =>
          cases b with
          | true => simp
          | false =>
            simp only [hdoc] at h ⊢
            cases hp : env.Parse d.links with
            | error e => simp [revertOnError_none]
            | ok root => simp [hp, remove] at h
      · simp [hlen] at h

theorem get?_eq_none_of_not_key {m : GoMap} {k : String}
    (h : k ∉ m.map Prod.fst) : m.get? k = none := by
  unfold GoMap.get?
  induction m with
  | nil => rfl
  | cons e m ih =>
    obtain ⟨a, b⟩ := e
    simp only [List.map_cons, List.mem_cons, not_or] at h
    have hne : (k == a) = false := by
      simp only [beq_eq_false_iff_ne, ne_eq]
      exact h.1
    simp only [List.lookup, hne]
    exact ih h.2

/-- The first part with the given name is replaced by the last part and the list
loses its last entry: up to order, that part is taken out. -/
theorem removeFile_spec {files : List ZipFile} {path : String}
    (hex : ∃ f ∈ files, f.Name = path) :
    ∃ f, f ∈ files ∧ f.Name = path ∧ (f :: removeFile files path).Perm files := by
  obtain ⟨g, hg, hgn⟩ := hex
  have hsome : (files.findIdx? (fun f => f.Name == path)).isSome := by
    rw [List.findIdx?_isSome]
    simp only [List.any_eq_true, beq_iff_eq]
    exact ⟨g, hg, hgn⟩
  obtain ⟨i, hi⟩ := Option.isSome_iff_exists.1 hsome
  obtain ⟨hlt, hpi, _⟩ := List.findIdx?_eq_some_iff_getElem.1 hi
  have hdecomp : files = files.take i ++ files[i] :: files.drop (i + 1) := by
    rw [← List.drop_eq_getElem_cons hlt, List.take_append_drop]
  have hilen : (files.take i).length = i := by
    rw [List.length_take]; omega
  refine ⟨files[i], List.getElem_mem hlt, by simpa using hpi, ?_⟩
  unfold removeFile
  rw [hi]
  generalize files.take i = A at hdecomp hilen
  generalize files[i] = f at hdecomp
  generalize files.drop (i + 1) = B at hdecomp
  subst hilen
  rw [hdecomp]
  rcases List.eq_nil_or_concat B with rfl | ⟨B', l, rfl⟩
  · simpa using (List.perm_append_singleton f A).symm
  · simp only [List.concat_eq_append]
    have hlast : (A ++ f :: (B' ++ [l])).getLast? = some l := by
      rw [show A ++ f :: (B' ++ [l]) = (A ++ f :: B') ++ [l] by simp]
      exact List.getLast?_concat _
    simp only [hlast]
    have hset : (A ++ f :: (B' ++ [l])).set A.length l = (A ++ l :: B') ++ [l] := by
      simp
    rw [hset, List.dropLast_concat]
    have : (f :: (A ++ l :: B')).Perm (A ++ f :: l :: B') := List.perm_middle.symm
    refine this.trans ?_
    apply List.Perm.append_left
    apply List.Perm.cons
    simpa using (List.perm_append_singleton l B').symm

/-! ## Lemmas on the relationship index -/

theorem GoMap.set_of_not_key {m : GoMap} {k : String} (v : String)
    (h : k ∉ m.map Prod.fst) : m.set k v = m ++ [(k, v)] := by
  unfold GoMap.set
  have hany : m.any (fun e => e.1 == k) = false := by
    rw [Bool.eq_false_iff]
    intro hany
    obtain ⟨e, he, hek⟩ := List.any_eq_true.1 hany
    apply h
    rw [← beq_iff_eq.1 hek]
    exact List.mem_map_of_mem _ he
  simp [hany]

theorem GoMap.mem_set {m : GoMap} {k v : String} {e : String × String}
    (h : e ∈ m.set k v) : e ∈ m ∨ e = (k, v) := by
  unfold GoMap.set at h
  split at h
  · obtain ⟨x, hx, hxe⟩ := List.mem_map.1 h
    split at hxe
    · exact Or.inr hxe.symm
    · exact Or.inl (hxe ▸ hx)
  · rcases List.mem_append.1 h with h | h
    · exact Or.inl h
    · exact Or.inr (List.mem_singleton.1 h)

/-- Every entry of the id map comes from a matched node or was there before. -/
theorem collectRelationships_entries {Node : Type} (env : Env Node) (nodes : List Node)
    (idm elm : GoMap) (r : GoMap × GoMap)
    (h : collectRelationships env nodes idm elm = .ok r) :
    ∀ e ∈ r.1, e ∈ idm ∨
      ∃ n ∈ nodes, e = (env.SelectAttr n "Id", env.SelectAttr n "Target") := by
  induction nodes generalizing idm elm with
  | nil =>
    simp only [collectRelationships, Outcome.ok.injEq] at h
    subst h
    exact fun e he => Or.inl he
  | cons n rest ih =>
    unfold collectRelationships at h
    split at h
    · exact Outcome.noConfusion h
    · intro e he
      rcases ih _ _ h e he with h1 | ⟨n', hn', rfl⟩
      · rcases GoMap.mem_set h1 with h2 | rfl
        · exact Or.inl h2
        · exact Or.inr ⟨n, List.mem_cons_self _ _, rfl⟩
      · exact Or.inr ⟨n', List.mem_cons_of_mem _ hn', rfl⟩

/-- The loop succeeds when every matched node is an element. -/
theorem collectRelationships_total {Node : Type} (env : Env Node) (nodes : List Node)
    (idm elm : GoMap) (h : ∀ n ∈ nodes, env.nodeType n = NodeType.ElementNode) :
    ∃ r, collectRelationships env nodes idm elm = .ok r := by
  induction nodes generalizing idm elm with
  | nil => exact ⟨_, rfl⟩
  | cons n rest ih =>
    unfold collectRelationships
    have hn : env.nodeType n = NodeType.ElementNode := h n (List.mem_cons_self _ _)
    simp only [hn, ne_eq, not_true_eq_false, if_false]
    exact ih _ _ (fun m hm => h m (List.mem_cons_of_mem _ hm))

/-- With pairwise distinct ids, the loop appends one entry per matched node. -/
theorem collectRelationships_closed {Node : Type} (env : Env Node) (nodes : List Node)
    (idm elm : GoMap) (r : GoMap × GoMap)
    (h : collectRelationships env nodes idm elm = .ok r)
    (h1 : (idm.map Prod.fst ++ nodes.map (fun n => env.SelectAttr n "Id")).Nodup)
    (h2 : (elm.map Prod.fst ++ nodes.map (fun n => env.SelectAttr n "Id")).Nodup) :
    r = (idm ++ nodes.map (fun n => (env.SelectAttr n "Id", env.SelectAttr n "Target")),
         elm ++ nodes.map (fun n => (env.SelectAttr n "Id", env.OutputXML n true))) := by
  induction nodes generalizing idm elm with
  | nil =>
    simp only [collectRelationships, Outcome.ok.injEq] at h
    simp [← h]
  | cons n rest ih =>
    unfold collectRelationships at h
    split at h
    · exact Outcome.noConfusion h
    · have hk1 : env.SelectAttr n "Id" ∉ idm.map Prod.fst := by
        intro hmem
        have := (List.nodup_append.1 h1).2.2
        exact this hmem (List.mem_cons_self _ _)
      have hk2 : env.SelectAttr n "Id" ∉ elm.map Prod.fst := by
        intro hmem
        have := (List.nodup_append.1 h2).2.2
        exact this hmem (List.mem_cons_self _ _)
      rw [GoMap.set_of_not_key _ hk1, GoMap.set_of_not_key _ hk2] at h
      have := ih _ _ h
        (by simpa [List.map_append, List.append_assoc] using h1)
        (by simpa [List.map_append, List.append_assoc] using h2)
      simpa [List.append_assoc] using this

/-- The ids that the filtering loop collects. -/
theorem filterLoop_fst (p : String) (l : GoMap) (a : List String) (m : GoMap) :
    (l.foldl
      (fun (acc : List String × GoMap) (e : String × String) =>
        if hasSuffix e.2 p then (acc.1 ++ [e.1], acc.2) else (acc.1, acc.2.delete e.1))
      (a, m)).1 = a ++ (l.filter (fun e => hasSuffix e.2 p)).map Prod.fst := by
  induction l generalizing a m with
  | nil => simp
  | cons e l ih =>
    simp only [List.foldl_cons]
    cases he : hasSuffix e.2 p with
    | true =>
      simp only [if_true, ih, List.filter_cons, he]
      simp
    | false =>
      simp only [Bool.false_eq_true, if_false, ih, List.filter_cons, he]

/-- The element map that the filtering loop leaves. -/
theorem filterLoop_snd_mem (p : String) (l : GoMap) (a : List String) (m : GoMap)
    (x : String × String) :
    x ∈ (l.foldl
      (fun (acc : List String × GoMap) (e : String × String) =>
        if hasSuffix e.2 p then (acc.1 ++ [e.1], acc.2) else (acc.1, acc.2.delete e.1))
      (a, m)).2 ↔ x ∈ m ∧ ∀ e ∈ l, hasSuffix e.2 p = false → e.1 ≠ x.1 := by
  induction l generalizing a m with
  | nil => simp
  | cons e l ih =>
    simp only [List.foldl_cons]
    cases he : hasSuffix e.2 p with
    | true =>
      simp only [if_true, ih, List.mem_cons, forall_eq_or_imp, he]
      simp
    | false =>
      simp only [Bool.false_eq_true, if_false]
      rw [ih]
      simp only [List.mem_cons, forall_eq_or_imp, he,
        GoMap.delete, List.mem_filter, bne_iff_ne, ne_eq, true_implies]
      constructor
      · rintro ⟨⟨hx, hne⟩, hall⟩
        exact ⟨hx, fun h => hne h.symm, hall⟩
      · rintro ⟨hx, hne, hall⟩
        exact ⟨⟨hx, fun h => hne h.symm⟩, hall⟩

/-- The index lookup reads the relationships text only. -/
theorem relationshipIds_congr {Node : Type} (env : Env Node) {d d' : Docx}
    (h : d'.links = d.links) (path : String) :
    relationshipIdsToGivenOPCPart env d' path = relationshipIdsToGivenOPCPart env d path := by
  unfold relationshipIdsToGivenOPCPart getCustomXMLRelationshipIDs
  rw [h]

/-- When the relationships text parses and every matched node is an element, the
index is built and each of its entries comes from a matched node. -/
theorem getCustomXMLRelationshipIDs_entries {Node : Type} (env : Env Node) (d : Docx)
    (root : Node) (nodes : List Node)
    (hparse : env.Parse d.links = .ok root)
    (hfind : env.Find root retrieveDocumentRelationshipsXPath = .ok nodes)
    (helem : ∀ n ∈ nodes, env.nodeType n = NodeType.ElementNode) :
    ∃ r, getCustomXMLRelationshipIDs env d = .ok r ∧
      ∀ e ∈ r.1, ∃ n ∈ nodes, e = (env.SelectAttr n "Id", env.SelectAttr n "Target") := by
  unfold getCustomXMLRelationshipIDs
  simp only [hparse, hfind]
  by_cases hlen : nodes.length = 0
  · simp only [hlen, if_true]
    exact ⟨_, rfl, fun e he => absurd he (List.not_mem_nil e)⟩
  · simp only [hlen, if_false]
    obtain ⟨r, hr⟩ := collectRelationships_total env nodes [] [] helem
    refine ⟨r, hr, fun e he => ?_⟩
    rcases collectRelationships_entries env nodes [] [] r hr e he with h | h
    · exact absurd h (List.not_mem_nil e)
    · exact h

/-- With pairwise distinct ids, the index has one entry per matched node. -/
theorem getCustomXMLRelationshipIDs_closed {Node : Type} (env : Env Node) (d : Docx)
    (root : Node) (nodes : List Node) (r : GoMap × GoMap)
    (hparse : env.Parse d.links = .ok root)
    (hfind : env.Find root retrieveDocumentRelationshipsXPath = .ok nodes)
    (hids : (nodes.map (fun n => env.SelectAttr n "Id")).Nodup)
    (h : getCustomXMLRelationshipIDs env d = .ok r) :
    r = (nodes.map (fun n => (env.SelectAttr n "Id", env.SelectAttr n "Target")),
         nodes.map (fun n => (env.SelectAttr n "Id", env.OutputXML n true))) := by
  unfold getCustomXMLRelationshipIDs at h
  simp only [hparse, hfind] at h
  by_cases hlen : nodes.length = 0
  · simp only [hlen, if_true, Outcome.ok.injEq] at h
    rw [List.length_eq_zero] at hlen
    subst hlen
    exact h.symm
  · simp only [hlen, if_false] at h
    have := collectRelationships_closed env nodes [] [] r h (by simpa using hids)
      (by simpa using hids)
    simpa using this

/-! ## The reference relationships text laid out in segments -/

theorem occursInPlace_mono {lits lits' segs : List String} (hsub : ∀ l ∈ lits', l ∈ lits)
    (h : OccursInPlace lits segs) : OccursInPlace lits' segs :=
  fun A s B hsplit u v huv hv l hl hlne hpre =>
    h A s B hsplit u v huv hv l (hsub l hl) hlne hpre

/-- The normalized reference relationships text is the opening text, the two
serialized relationship elements and the closing text, and the serialized elements
occur in it only in place. -/
theorem reference_links_inPlace :
    OccursInPlace [rel1.outer, rel2.outer]
      [relationshipsOpen, rel1.outer, rel2.outer, relationshipsClose] := by
  apply occursInPlace_cons _ _ _ (by decide)
  apply occursInPlace_cons _ _ _ (by decide)
  apply occursInPlace_cons _ _ _ (by decide)
  apply occursInPlace_cons _ _ _ (by decide)
  exact occursInPlace_nil _

/-- The reference parser reads the reference relationships text with some of the
serialized relationship elements left out: it finds the elements that are left. -/
theorem referenceEnv_reads_segments (R : List String)
    (h : ∀ r ∈ R, ∃ n ∈ [rel1, rel2], r = referenceEnv.OutputXML n true) :
    ∃ root' nodes',
      referenceEnv.Parse (String.join
        ([relationshipsOpen, rel1.outer, rel2.outer, relationshipsClose].filter
          (fun s => !R.contains s))) = .ok root' ∧
      referenceEnv.Find root' retrieveDocumentRelationshipsXPath = .ok nodes' ∧
      ∀ n' ∈ nodes', referenceEnv.nodeType n' = NodeType.ElementNode ∧
        ∃ n ∈ [rel1, rel2],
          referenceEnv.SelectAttr n' "Id" = referenceEnv.SelectAttr n "Id" ∧
          referenceEnv.SelectAttr n' "Target" = referenceEnv.SelectAttr n "Target" ∧
          referenceEnv.OutputXML n true ∉ R := by
  have h' : ∀ r ∈ R, r = rel1.outer ∨ r = rel2.outer := by
    intro r hr
    obtain ⟨n, hn, rfl⟩ := h r hr
    simp only [List.mem_cons, List.mem_singleton, List.not_mem_nil, or_false] at hn
    rcases hn with rfl | rfl
    · exact Or.inl rfl
    · exact Or.inr rfl
  have hopen : R.contains relationshipsOpen = false := by
    rw [Bool.eq_false_iff]
    intro hc
    rcases h' _ (List.elem_iff.1 hc) with he | he
    · exact absurd he (by decide)
    · exact absurd he (by decide)
  have hclose : R.contains relationshipsClose = false := by
    rw [Bool.eq_false_iff]
    intro hc
    rcases h' _ (List.elem_iff.1 hc) with he | he
    · exact absurd he (by decide)
    · exact absurd he (by decide)
  by_cases h1 : rel1.outer ∈ R <;> by_cases h2 : rel2.outer ∈ R
  · have c1 : R.contains rel1.outer = true := List.elem_iff.2 h1
    have c2 : R.contains rel2.outer = true := List.elem_iff.2 h2
    simp only [List.filter, hopen, hclose, c1, c2, Bool.not_true, Bool.not_false]
    exact ⟨relationshipsDocument [], [], rfl, rfl,
      fun n' hn' => absurd hn' (List.not_mem_nil n')⟩
  · have c1 : R.contains rel1.outer = true := List.elem_iff.2 h1
    have c2 : R.contains rel2.outer = false := by
      rw [Bool.eq_false_iff]; exact fun hc => h2 (List.elem_iff.1 hc)
    simp only [List.filter, hopen, hclose, c1, c2, Bool.not_true, Bool.not_false]
    refine ⟨relationshipsDocument [rel2], [rel2], rfl, rfl, fun n' hn' => ?_⟩
    rw [List.mem_singleton.1 hn']
    exact ⟨rfl, rel2, by simp, rfl, rfl, h2⟩
  · have c1 : R.contains rel1.outer = false := by
      rw [Bool.eq_false_iff]; exact fun hc => h1 (List.elem_iff.1 hc)
    have c2 : R.contains rel2.outer = true := List.elem_iff.2 h2
    simp only [List.filter, hopen, hclose, c1, c2, Bool.not_true, Bool.not_false]
    refine ⟨relationshipsDocument [rel1], [rel1], rfl, rfl, fun n' hn' => ?_⟩
    rw [List.mem_singleton.1 hn']
    exact ⟨rfl, rel1, by simp, rfl, rfl, h1⟩
  · have c1 : R.contains rel1.outer = false := by
      rw [Bool.eq_false_iff]; exact fun hc => h1 (List.elem_iff.1 hc)
    have c2 : R.contains rel2.outer = false := by
      rw [Bool.eq_false_iff]; exact fun hc => h2 (List.elem_iff.1 hc)
    simp only [List.filter, hopen, hclose, c1, c2, Bool.not_true, Bool.not_false]
    refine ⟨relationshipsDocument [rel1, rel2], [rel1, rel2], rfl, rfl, fun n' hn' => ?_⟩
    simp only [List.mem_cons, List.mem_singleton, List.not_mem_nil, or_false] at hn'
    rcases hn' with rfl | rfl
    · exact ⟨rfl, rel1, by simp, rfl, rfl, h1⟩
    · exact ⟨rfl, rel2, by simp, rfl, rfl, h2⟩

/-- The normalized text of the document with three paragraphs is the opening text,
the three serialized paragraphs, the section properties and the closing text, and
the serialized paragraphs occur in it only in place. -/
theorem threeParagraphs_inPlace :
    OccursInPlace
      ([paragraphA, paragraphB, paragraphC].map (fun e => extendedEnv.OutputXML e true))
      [bodyOpen, paragraphA.outer, paragraphB.outer, paragraphC.outer, sectPr.outer,
        bodyClose] := by
  apply occursInPlace_cons _ _ _ (by decide)
  apply occursInPlace_cons _ _ _ (by decide)
  apply occursInPlace_cons _ _ _ (by decide)
  apply occursInPlace_cons _ _ _ (by decide)
  apply occursInPlace_cons _ _ _ (by decide)
  apply occursInPlace_cons _ _ _ (by decide)
  exact occursInPlace_nil _

/-! ## The custom-data part remover: claims C1 to C7 -/

/-- C1, at the failing input: the part `customXml/item1.xml` exists, the relationship
`rId1` targets it, and the main document has an attribute `r:id="rId1"` in the
relationships namespace of the office document (the query built from the ids finds
one attribute node). `RemoveCustomXML` nevertheless returns nil, removes the
`rId1` relationship from the relationships text and drops the part from the
part list: the check evaluates the fixed relationships query on the main document,
which finds nothing there. -/
theorem C1_cited_part_is_removed :
    citingPackage.customXML.get? "customXml/item1.xml" = some "<data></data>" ∧
    (∃ elems, relationshipIdsToGivenOPCPart referenceEnv citingPackage "customXml/item1.xml"
      = .ok (["rId1"], elems)) ∧
    (match referenceEnv.Find citingDocument (referencesXPath ["rId1"]) with
      | .ok list => list.length
      | .error _ => 0) = 1 ∧
    docReferencesRelsIds referenceEnv citingPackage ["rId1"] = .ok false ∧
    (RemoveCustomXML referenceEnv citingPackage "customXml/item1.xml").2 = Ret.nil ∧
    (RemoveCustomXML referenceEnv citingPackage "customXml/item1.xml").1.links =
      (relationshipsDocument [rel2]).OutputXML false ∧
    (RemoveCustomXML referenceEnv citingPackage "customXml/item1.xml").1.files =
      [⟨"word/document.xml", citingPackage.content⟩, ⟨"word/styles.xml", "<styles></styles>"⟩] := by
  refine ⟨by decide, ⟨_, rfl⟩, by decide, by decide, by decide, by decide, by decide⟩

/-- C2, as stated, fails: in a package whose main document has no reference at all,
`RemoveCustomXML` returns nil and the map returned by `GetCustomXML` still has the
key of the removed part. -/
theorem C2_removed_part_stays_in_map :
    (match referenceEnv.Find plainDocument (referencesXPath ["rId1"]) with
      | .ok list => list.length
      | .error _ => 1) = 0 ∧
    (RemoveCustomXML referenceEnv plainPackage "customXml/item1.xml").2 = Ret.nil ∧
    (GetCustomXML (RemoveCustomXML referenceEnv plainPackage "customXml/item1.xml").1).get?
      "customXml/item1.xml" = some "<data></data>" := by
  refine ⟨by decide, by decide, by decide⟩

/-- C2, amended: let the path be a key of the custom-data map, let the relationships
index give the ids `ids` of the relationships that target the path, and let the main
document parse to a document with no live reference (no attribute found by the
XPath built from `ids`) and with no relationship element. Then `RemoveCustomXML`
returns no error, and the map returned by `GetCustomXML` afterwards is the map of
before the call: it still has the key with its content. -/
theorem C2_remove_succeeds_key_stays {Node : Type} (env : Env Node) (d : Docx)
    (path c : String) (ids : List String) (elems : GoMap) (doc : Node)
    (hpart : d.customXML.get? path = some c)
    (hrels : relationshipIdsToGivenOPCPart env d path = .ok (ids, elems))
    (hdoc : env.Parse d.content = .ok doc)
    (hnoref : ids ≠ [] → env.Find doc (referencesXPath ids) = .ok [])
    (hmain : env.Find doc retrieveDocumentRelationshipsXPath = .ok []) :
    (RemoveCustomXML env d path).2 = Ret.nil ∧
    GetCustomXML (RemoveCustomXML env d path).1 = GetCustomXML d ∧
    (GetCustomXML (RemoveCustomXML env d path).1).get? path = some c := by
  obtain ⟨root, hroot⟩ := relationshipIds_ok_parse hrels
  have key : ∃ l f, RemoveCustomXML env d path =
      ({ d with links := l, files := f }, Ret.nil) := by
    unfold RemoveCustomXML
    simp only [hpart, hrels]
    by_cases hlen : ids.length > 0
    · have hne : ids ≠ [] := List.ne_nil_of_length_pos hlen
      have _hlive := hnoref hne
      have hcheck : docReferencesRelsIds env d ids = .ok false := by
        unfold docReferencesRelsIds
        have hlen0 : ¬ ids.length = 0 := Nat.pos_iff_ne_zero.1 hlen
        simp [hlen0, hdoc, hmain]
      simp only [hlen, if_true, hcheck, hroot, remove]
      exact ⟨_, _, rfl⟩
    · simp only [hlen, if_false]
      exact ⟨d.links, _, rfl⟩
  obtain ⟨l, f, hl⟩ := key
  rw [hl]
  exact ⟨rfl, rfl, hpart⟩

/-- C2, amended, at a concrete input: the package whose main document has no
reference; the relationship `rId1` targets the part. -/
theorem C2_remove_succeeds_key_stays_witness :
    (RemoveCustomXML referenceEnv plainPackage "customXml/item1.xml").2 = Ret.nil ∧
    GetCustomXML (RemoveCustomXML referenceEnv plainPackage "customXml/item1.xml").1 =
      GetCustomXML plainPackage ∧
    (GetCustomXML (RemoveCustomXML referenceEnv plainPackage "customXml/item1.xml").1).get?
      "customXml/item1.xml" = some "<data></data>" :=
  C2_remove_succeeds_key_stays referenceEnv plainPackage "customXml/item1.xml"
    "<data></data>" ["rId1"] [("rId1", rel1.outer)] plainDocument (by decide) (by decide)
    rfl (fun _ => rfl) rfl

/-- C3: for a path that is not a key of the custom-data map, `RemoveCustomXML`
returns a `NoCustomXmlPartError` and the package is unchanged. -/
theorem C3_missing_part_error {Node : Type} (env : Env Node) (d : Docx) (path : String)
    (hkey : path ∉ d.customXML.map Prod.fst) :
    RemoveCustomXML env d path =
      (d, Ret.error (GoError.NoCustomXmlPartError
        "no customXml Part is found for the given path")) := by
  unfold RemoveCustomXML
  rw [get?_eq_none_of_not_key hkey]

/-- C3, at a concrete input: no part `customXml/item99.xml` exists. -/
theorem C3_missing_part_error_witness :
    RemoveCustomXML referenceEnv plainPackage "customXml/item99.xml" =
      (plainPackage, Ret.error (GoError.NoCustomXmlPartError
        "no customXml Part is found for the given path")) :=
  C3_missing_part_error referenceEnv plainPackage "customXml/item99.xml" (by decide)

/-- C4: whenever `RemoveCustomXML` returns a non-nil error, the relationships text,
the main document content, the part list and the custom-data map are those of
before the call. -/
theorem C4_error_leaves_package_unchanged {Node : Type} (env : Env Node) (d : Docx)
    (path : String) (e : GoError)
    (herr : (RemoveCustomXML env d path).2 = Ret.error e) :
    (RemoveCustomXML env d path).1.links = d.links ∧
    (RemoveCustomXML env d path).1.content = d.content ∧
    (RemoveCustomXML env d path).1.files = d.files ∧
    (RemoveCustomXML env d path).1.customXML = d.customXML := by
  have hne : (RemoveCustomXML env d path).2 ≠ Ret.nil := by
    rw [herr]
    exact fun h => Ret.noConfusion h
  rw [RemoveCustomXML_fail_state env d path hne]
  exact ⟨rfl, rfl, rfl, rfl⟩

/-- C4, at a concrete input: the relationships text is not well-formed. -/
theorem C4_error_leaves_package_unchanged_witness :
    (RemoveCustomXML referenceEnv { plainPackage with links := "<Relationships" }
      "customXml/item1.xml").2 = Ret.error (GoError.libraryError "XML syntax error") ∧
    (RemoveCustomXML referenceEnv { plainPackage with links := "<Relationships" }
      "customXml/item1.xml").1.links = "<Relationships" :=
  ⟨by decide,
    (C4_error_leaves_package_unchanged referenceEnv { plainPackage with links := "<Relationships" }
      "customXml/item1.xml" (GoError.libraryError "XML syntax error") (by decide)).1⟩

/-- C5: after a successful `RemoveCustomXML(path)`, the index lookup for the same
path on the new relationships text returns an empty id list. Assumed of the
package: the relationship ids are pairwise distinct. Assumed of the library, on
texts only: the normalized relationships text is laid out in segments `segs`, the
serialized matched elements occur in it only in place, and a text made of these
segments with the serialized text of some matched elements left out parses to a
document whose relationship elements are matched elements (same `Id` and `Target`)
that were not left out. That `remove` turns the normalized text into such a text,
with every relationship that targets the path left out, is proved. -/
theorem C5_no_relationship_left {Node : Type} (env : Env Node) (d d' : Docx) (path : String)
    (root : Node) (nodes : List Node) (segs : List String)
    (hrun : RemoveCustomXML env d path = (d', Ret.nil))
    (hparse : env.Parse d.links = .ok root)
    (hfind : env.Find root retrieveDocumentRelationshipsXPath = .ok nodes)
    (hids : (nodes.map (fun n => env.SelectAttr n "Id")).Nodup)
    (hsegs : String.join segs = env.OutputXML root false)
    (hplace : OccursInPlace (nodes.map (fun n => env.OutputXML n true)) segs)
    (hlib : ∀ R : List String, (∀ r ∈ R, ∃ n ∈ nodes, r = env.OutputXML n true) →
      ∃ root' nodes',
        env.Parse (String.join (segs.filter (fun s => !R.contains s))) = .ok root' ∧
        env.Find root' retrieveDocumentRelationshipsXPath = .ok nodes' ∧
        ∀ n' ∈ nodes', env.nodeType n' = NodeType.ElementNode ∧
          ∃ n ∈ nodes, env.SelectAttr n' "Id" = env.SelectAttr n "Id" ∧
            env.SelectAttr n' "Target" = env.SelectAttr n "Target" ∧
            env.OutputXML n true ∉ R) :
    ∃ elems, relationshipIdsToGivenOPCPart env d' path = .ok ([], elems) := by
  obtain ⟨_, ids, elems, hrel, _, _, _, hcase⟩ := RemoveCustomXML_nil_inv hrun
  rcases hcase with ⟨hnil, hlinks⟩ | ⟨_, _, root0, hroot0, hlinks⟩
  · rw [relationshipIds_congr env hlinks path, hrel, hnil]
    exact ⟨elems, rfl⟩
  · have hroot : root0 = root := by
      rw [hparse] at hroot0
      exact (Except.ok.inj hroot0).symm
    subst hroot
    -- the index before the call
    unfold relationshipIdsToGivenOPCPart at hrel
    cases hg : getCustomXMLRelationshipIDs env d with
    | error e => simp [hg] at hrel
    | panic v => simp [hg] at hrel
    | ok r =>
      have hclosed := getCustomXMLRelationshipIDs_closed env d root0 nodes r hparse hfind hids hg
      subst hclosed
      simp only [hg, Outcome.ok.injEq] at hrel
      have helems := congrArg Prod.snd hrel
      simp only at helems
      -- the deleted literals are serialized forms of matched nodes
      have harr : ∀ l ∈ (env.rangeOrder elems).map Prod.snd,
          ∃ n ∈ nodes, l = env.OutputXML n true := by
        intro l hl
        obtain ⟨x, hx, rfl⟩ := List.mem_map.1 hl
        have hx' : x ∈ elems := (env.rangeOrder_perm elems).mem_iff.1 hx
        rw [← helems, filterLoop_snd_mem] at hx'
        obtain ⟨n, hn, rfl⟩ := List.mem_map.1 hx'.1
        exact ⟨n, hn, rfl⟩
      -- every matched node whose target ends with the path is deleted
      have hdel : ∀ n ∈ nodes, hasSuffix (env.SelectAttr n "Target") path = true →
          env.OutputXML n true ∈ (env.rangeOrder elems).map Prod.snd := by
        intro n hn hsuf
        apply List.mem_map.2
        refine ⟨(env.SelectAttr n "Id", env.OutputXML n true), ?_, rfl⟩
        apply (env.rangeOrder_perm elems).mem_iff.2
        rw [← helems, filterLoop_snd_mem]
        refine ⟨List.mem_map.2 ⟨n, hn, rfl⟩, ?_⟩
        intro e he hfalse heq
        have he' := (env.rangeOrder_perm _).mem_iff.1 he
        obtain ⟨m, hm, rfl⟩ := List.mem_map.1 he'
        have hmn : m = n := List.inj_on_of_nodup_map hids hm hn heq
        subst hmn
        rw [hsuf] at hfalse
        exact Bool.noConfusion hfalse
      -- what `remove` does to the normalized text
      have hplace' : OccursInPlace ((env.rangeOrder elems).map Prod.snd) segs :=
        occursInPlace_mono
          (fun l hl => by
            obtain ⟨n, hn, rfl⟩ := harr l hl
            exact List.mem_map.2 ⟨n, hn, rfl⟩)
          hplace
      have hnew : d'.links = String.join
          (segs.filter (fun s => !((env.rangeOrder elems).map Prod.snd).contains s)) := by
        rw [hlinks, ← hsegs]
        exact String.ext (replaceFrom_inPlace _ segs hplace')
      obtain ⟨root', nodes', hp', hf', hsurv⟩ := hlib _ harr
      rw [← hnew] at hp'
      obtain ⟨r', hr', hentries⟩ := getCustomXMLRelationshipIDs_entries env d' root' nodes' hp' hf'
        (fun n' hn' => (hsurv n' hn').1)
      unfold relationshipIdsToGivenOPCPart
      rw [hr']
      obtain ⟨idm', elm'⟩ := r'
      have hnone : (env.rangeOrder idm').filter (fun e => hasSuffix e.2 path) = [] := by
        rw [List.filter_eq_nil_iff]
        intro e he
        have he' := (env.rangeOrder_perm _).mem_iff.1 he
        obtain ⟨n', hn', rfl⟩ := hentries e he'
        obtain ⟨_, n, hn, _, htg, hnot⟩ := hsurv n' hn'
        intro hsuf
        apply hnot
        apply hdel n hn
        rw [← htg]
        exact hsuf
      have hfst := filterLoop_fst path (env.rangeOrder idm') [] elm'
      rw [hnone] at hfst
      exact ⟨_, congrArg Outcome.ok (Prod.ext hfst rfl)⟩

/-- C5, at a concrete input: the relationship `rId1` with target
`../customXml/item1.xml` and the path `customXml/item1.xml`; the new relationships
text is the normalized text without that relationship element. -/
theorem C5_no_relationship_left_witness :
    (RemoveCustomXML referenceEnv plainPackage "customXml/item1.xml").1.links =
      String.join [relationshipsOpen, rel2.outer, relationshipsClose] ∧
    ∃ elems, relationshipIdsToGivenOPCPart referenceEnv
      (RemoveCustomXML referenceEnv plainPackage "customXml/item1.xml").1
      "customXml/item1.xml" = .ok ([], elems) :=
  ⟨by decide,
    C5_no_relationship_left referenceEnv plainPackage
      (RemoveCustomXML referenceEnv plainPackage "customXml/item1.xml").1 "customXml/item1.xml"
      (relationshipsDocument [rel1, rel2]) [rel1, rel2]
      [relationshipsOpen, rel1.outer, rel2.outer, relationshipsClose]
      (Prod.ext rfl (by decide)) rfl rfl (by decide) (by decide)
      reference_links_inPlace referenceEnv_reads_segments⟩

/-- C6: when the part names are unique and a part is named `path`, a successful
`RemoveCustomXML` leaves a part list without a part of that name, one element
shorter, and such that the old list is a rearrangement of the new list together
with the removed part. -/
theorem C6_part_list_after_removal {Node : Type} (env : Env Node) (d d' : Docx)
    (path : String)
    (hnames : (d.files.map ZipFile.Name).Nodup)
    (hpart : ∃ f ∈ d.files, f.Name = path)
    (hrun : RemoveCustomXML env d path = (d', Ret.nil)) :
    (∀ f ∈ d'.files, f.Name ≠ path) ∧
    d'.files.length + 1 = d.files.length ∧
    ∃ f, f ∈ d.files ∧ f.Name = path ∧ (f :: d'.files).Perm d.files := by
  obtain ⟨_, ids, elems, _, hfiles, _⟩ := RemoveCustomXML_nil_inv hrun
  obtain ⟨f, hf, hfn, hperm⟩ := removeFile_spec hpart
  rw [← hfiles] at hperm
  have hnd : ((f :: d'.files).map ZipFile.Name).Nodup :=
    ((hperm.map ZipFile.Name).nodup_iff).2 hnames
  refine ⟨?_, ?_, f, hf, hfn, hperm⟩
  · intro g hg hgn
    rw [List.map_cons, List.nodup_cons] at hnd
    apply hnd.1
    rw [hfn, ← hgn]
    exact List.mem_map_of_mem _ hg
  · have := hperm.length_eq
    simpa using this

/-- C6, at a concrete input: the package without references. -/
theorem C6_part_list_after_removal_witness :
    (∀ f ∈ (RemoveCustomXML referenceEnv plainPackage "customXml/item1.xml").1.files,
      f.Name ≠ "customXml/item1.xml") ∧
    (RemoveCustomXML referenceEnv plainPackage "customXml/item1.xml").1.files.length + 1 =
      plainPackage.files.length ∧
    ∃ f, f ∈ plainPackage.files ∧ f.Name = "customXml/item1.xml" ∧
      (f :: (RemoveCustomXML referenceEnv plainPackage "customXml/item1.xml").1.files).Perm
        plainPackage.files :=
  C6_part_list_after_removal referenceEnv plainPackage
    (RemoveCustomXML referenceEnv plainPackage "customXml/item1.xml").1 "customXml/item1.xml"
    (by decide) ⟨⟨"customXml/item1.xml", "<data></data>"⟩, by decide, rfl⟩ (by decide)

/-- C7: `RemoveCustomXML` leaves the main document content as it was, whatever the
result; the custom-data map is not changed either, so only the relationships text
and the part list can change. -/
theorem C7_content_unchanged {Node : Type} (env : Env Node) (d : Docx) (path : String) :
    (RemoveCustomXML env d path).1.content = d.content ∧
    (RemoveCustomXML env d path).1.customXML = d.customXML := by
  by_cases h : (RemoveCustomXML env d path).2 = Ret.nil
  · obtain ⟨_, ids, elems, _, _, hc, hm, _⟩ :=
      @RemoveCustomXML_nil_inv Node env d (RemoveCustomXML env d path).1 path (Prod.ext rfl h)
    exact ⟨hc, hm⟩
  · rw [RemoveCustomXML_fail_state env d path h]
    exact ⟨rfl, rfl⟩

/-! ## The text-splice remover: claims C8, C9 and C10 -/

/-- C8: for every source string and every list of literals, `remove` returns a nil
error and a result obtained from the source by deleting non-overlapping spans: the
source is cut into consecutive pieces, the result is the pieces that are kept, in
order, and every deleted piece is one of the literals. The result equals the source
when no non-empty literal occurs in it, and
`remove("sometext abc abcdefg", ["abc","de"]) = "sometext  fg"`. -/
theorem C8_remove_deletes_literal_spans (inputString : String) (toBeRemoved : List String) :
    (remove inputString toBeRemoved).2 = none ∧
    (∃ pieces : List (Bool × String),
      (pieces.map (fun p => p.2.data)).flatten = inputString.data ∧
      ((pieces.filter (fun p => !p.1)).map (fun p => p.2.data)).flatten
        = (remove inputString toBeRemoved).1.data ∧
      ∀ p ∈ pieces, p.1 = true → p.2 ∈ toBeRemoved) ∧
    ((∀ l ∈ toBeRemoved, l ≠ "" → ¬ l.data <:+: inputString.data) →
      (remove inputString toBeRemoved).1 = inputString) ∧
    remove "sometext abc abcdefg" ["abc", "de"] = ("sometext  fg", none) := by
  refine ⟨rfl, ?_, ?_, by decide⟩
  · obtain ⟨ps, h1, h2, h3⟩ := replaceFrom_pieces (toBeRemoved.map String.data) inputString.data
    refine ⟨ps.map (fun p => (p.1, String.mk p.2)), ?_, ?_, ?_⟩
    · rw [List.map_map]
      exact h1
    · rw [List.filter_map, List.map_map]
      exact h2
    · intro p hp hp1
      obtain ⟨q, hq, rfl⟩ := List.mem_map.1 hp
      obtain ⟨l, hl, hlq⟩ := List.mem_map.1 (h3 q hq hp1)
      have : String.mk q.2 = l := String.ext hlq.symm
      simp only [this]
      exact hl
  · exact remove_eq_self

/-- C8, at a concrete input: no literal occurs and the source is returned. -/
theorem C8_remove_deletes_literal_spans_witness :
    (remove "hello world" ["xyz", ""]).1 = "hello world" :=
  (C8_remove_deletes_literal_spans "hello world" ["xyz", ""]).2.2.1 (by decide)

/-- C9, as stated, fails: a second application of `remove` with the same literal
changes the text again, because the first deletion joins `a` and `bc`. -/
theorem C9_remove_not_idempotent :
    (remove "aabcbc" ["abc"]).1 = "abc" ∧ (remove "abc" ["abc"]).1 = "" ∧
    (remove (remove "aabcbc" ["abc"]).1 ["abc"]).1 ≠ (remove "aabcbc" ["abc"]).1 := by
  decide

/-- C9, amended: a second application of `remove` with the same literals is a no-op
exactly when no non-empty literal occurs in the result of the first application. -/
theorem C9_remove_idempotent_iff (s : String) (L : List String) :
    (remove (remove s L).1 L).1 = (remove s L).1 ↔
      ∀ l ∈ L, l ≠ "" → ¬ l.data <:+: (remove s L).1.data := by
  constructor
  · intro heq l hl hne hin
    have hmem : l.data ∈ L.map String.data := List.mem_map.2 ⟨l, hl, rfl⟩
    have hlt := replaceFrom_length_lt hmem (fun h0 => hne (String.ext h0)) hin
    have hdata := congrArg String.data heq
    have hlen := congrArg List.length hdata
    simp only [remove] at hlen hlt
    omega
  · intro h
    exact remove_eq_self h

/-- C9, amended, at a concrete input: the literals of the test leave no occurrence
behind, so the second application changes nothing. -/
theorem C9_remove_idempotent_iff_witness :
    (remove (remove "sometext abc abcdefg" ["abc", "de"]).1 ["abc", "de"]).1 =
      (remove "sometext abc abcdefg" ["abc", "de"]).1 :=
  (C9_remove_idempotent_iff "sometext abc abcdefg" ["abc", "de"]).2 (by decide)

/-- C10: for literal lists that are permutations of each other and in which no two
distinct literals share a common non-empty substring, `remove` gives the same
result. -/
theorem C10_remove_order_independent (s : String) (L1 L2 : List String)
    (hperm : L1.Perm L2)
    (hdisj : ∀ a ∈ L1, ∀ b ∈ L1, a ≠ b →
      ¬ ∃ w : List Char, w ≠ [] ∧ w <:+: a.data ∧ w <:+: b.data) :
    remove s L1 = remove s L2 := by
  have hfm : ∀ t, firstMatch (L1.map String.data) t = firstMatch (L2.map String.data) t := by
    apply firstMatch_perm_eq
    · intro o
      simp only [List.mem_map]
      constructor
      · rintro ⟨l, hl, rfl⟩; exact ⟨l, hperm.mem_iff.1 hl, rfl⟩
      · rintro ⟨l, hl, rfl⟩; exact ⟨l, hperm.mem_iff.2 hl, rfl⟩
    · intro a ha b hb hab
      obtain ⟨la, hla, rfl⟩ := List.mem_map.1 ha
      obtain ⟨lb, hlb, rfl⟩ := List.mem_map.1 hb
      exact hdisj la hla lb hlb (fun h => hab (by rw [h]))
  simp only [remove, replaceFrom_congr hfm]

/-- C10, at a concrete input: the literals of the test in both orders. -/
theorem C10_remove_order_independent_witness :
    remove "sometext abc abcdefg" ["abc", "de"] = remove "sometext abc abcdefg" ["de", "abc"] :=
  C10_remove_order_independent "sometext abc abcdefg" ["abc", "de"] ["de", "abc"]
    (List.Perm.swap _ _ _)
    (by
      intro a ha b hb hab
      apply no_common_substring_of_disjoint
      simp only [List.mem_cons, List.mem_singleton, List.not_mem_nil, or_false] at ha hb
      rcases ha with rfl | rfl <;> rcases hb with rfl | rfl <;>
        first
        | exact absurd rfl hab
        | decide)

/-! ## Lemmas on map keys -/

theorem GoMap.any_key_iff (m : GoMap) (k : String) :
    m.any (fun e => e.1 == k) = true ↔ k ∈ m.map Prod.fst := by
  simp only [List.any_eq_true, beq_iff_eq, List.mem_map]

/-- The keys after an assignment: unchanged when the key is present, one more
otherwise. -/
theorem GoMap.set_keys (m : GoMap) (k v : String) :
    (m.set k v).map Prod.fst =
      if k ∈ m.map Prod.fst then m.map Prod.fst else m.map Prod.fst ++ [k] := by
  unfold GoMap.set
  by_cases h : k ∈ m.map Prod.fst
  · have hany : m.any (fun e => e.1 == k) = true := (GoMap.any_key_iff m k).2 h
    simp only [hany, if_true, h, List.map_map]
    apply List.map_congr_left
    intro e _
    simp only [Function.comp]
    split
    · rename_i hek
      exact (beq_iff_eq.1 hek).symm
    · rfl
  · have hany : m.any (fun e => e.1 == k) = false := by
      rw [Bool.eq_false_iff]
      exact fun hc => h ((GoMap.any_key_iff m k).1 hc)
    simp [hany, h]

theorem GoMap.set_keys_nodup {m : GoMap} (k v : String) (h : (m.map Prod.fst).Nodup) :
    ((m.set k v).map Prod.fst).Nodup := by
  rw [GoMap.set_keys]
  split
  · exact h
  · rename_i hk
    rw [List.nodup_append]
    refine ⟨h, List.nodup_singleton k, ?_⟩
    intro a ha hb
    rw [List.mem_singleton] at hb
    exact hk (hb ▸ ha)

theorem GoMap.mem_set_keys (m : GoMap) (k v k' : String) :
    k' ∈ (m.set k v).map Prod.fst ↔ k' ∈ m.map Prod.fst ∨ k' = k := by
  rw [GoMap.set_keys]
  split
  · rename_i hk
    constructor
    · exact Or.inl
    · rintro (h | rfl)
      · exact h
      · exact hk
  · simp [List.mem_append]

theorem GoMap.lookup_cons_ite (a k b : String) (es : List (String × String)) :
    List.lookup a ((k, b) :: es) = if a = k then some b else List.lookup a es := by
  rw [List.lookup_cons]
  by_cases h : a = k
  · subst h; simp
  · have : (a == k) = false := by simpa using h
    simp [this, h]

theorem GoMap.lookup_replace (k' k v : String) (m : List (String × String)) :
    List.lookup k' (m.map (fun e => if e.1 == k then (k, v) else e)) =
      if k' = k then (if k ∈ m.map Prod.fst then some v else none) else List.lookup k' m := by
  induction m with
  | nil => simp
  | cons e m ih =>
    obtain ⟨a, b⟩ := e
    by_cases h1 : a = k <;> by_cases h2 : k' = k <;> by_cases h3 : k' = a <;>
      simp_all [GoMap.lookup_cons_ite]
    simp only [List.mem_cons, h3, false_or]

theorem GoMap.lookup_eq_none_of_not_key {m : List (String × String)} {k : String}
    (h : k ∉ m.map Prod.fst) : List.lookup k m = none := by
  rw [List.lookup_eq_none_iff]
  intro p hp
  simp only [bne_iff_ne, ne_eq]
  intro hk
  exact h (hk ▸ List.mem_map_of_mem Prod.fst hp)

/-- The lookup after an assignment. -/
theorem GoMap.get?_set (m : GoMap) (k v k' : String) :
    (m.set k v).get? k' = if k' = k then some v else m.get? k' := by
  unfold GoMap.set GoMap.get?
  by_cases hk : k ∈ m.map Prod.fst
  · have hany : m.any (fun e => e.1 == k) = true := (GoMap.any_key_iff m k).2 hk
    simp only [hany, if_true]
    rw [GoMap.lookup_replace]
    simp only [hk, if_true]
  · have hany : m.any (fun e => e.1 == k) = false := by
      rw [Bool.eq_false_iff]
      exact fun hc => hk ((GoMap.any_key_iff m k).1 hc)
    simp only [hany, Bool.false_eq_true, if_false]
    rw [List.lookup_append]
    by_cases hk' : k' = k
    · subst hk'
      rw [GoMap.lookup_eq_none_of_not_key hk]
      simp [GoMap.lookup_cons_ite]
    · simp only [hk', if_false, GoMap.lookup_cons_ite, List.lookup_nil]
      cases List.lookup k' m <;> rfl

/-! ## The index as a pair of maps -/

/-- The loop keeps the two maps on the same keys, without repetition, and adds
the ids of the matched nodes. -/
theorem collectRelationships_keys {Node : Type} (env : Env Node) (nodes : List Node)
    (idm elm : GoMap) (r : GoMap × GoMap)
    (h : collectRelationships env nodes idm elm = .ok r)
    (hsame : idm.map Prod.fst = elm.map Prod.fst) (hnd : (idm.map Prod.fst).Nodup) :
    r.1.map Prod.fst = r.2.map Prod.fst ∧ (r.1.map Prod.fst).Nodup ∧
    ∀ k, k ∈ r.1.map Prod.fst ↔
      k ∈ idm.map Prod.fst ∨ ∃ n ∈ nodes, env.SelectAttr n "Id" = k := by
  induction nodes generalizing idm elm with
  | nil =>
    simp only [collectRelationships, Outcome.ok.injEq] at h
    subst h
    exact ⟨hsame, hnd, fun k => by simp⟩
  | cons n rest ih =>
    unfold collectRelationships at h
    split at h
    · exact Outcome.noConfusion h
    · have hsame' : (idm.set (env.SelectAttr n "Id") (env.SelectAttr n "Target")).map Prod.fst =
          (elm.set (env.SelectAttr n "Id") (env.OutputXML n true)).map Prod.fst := by
        rw [GoMap.set_keys, GoMap.set_keys, hsame]
      obtain ⟨h1, h2, h3⟩ := ih _ _ h hsame' (GoMap.set_keys_nodup _ _ hnd)
      refine ⟨h1, h2, fun k => ?_⟩
      rw [h3, GoMap.mem_set_keys]
      constructor
      · rintro ((hk | hk) | ⟨m, hm, hmk⟩)
        · exact Or.inl hk
        · exact Or.inr ⟨n, List.mem_cons_self _ _, hk.symm⟩
        · exact Or.inr ⟨m, List.mem_cons_of_mem _ hm, hmk⟩
      · rintro (hk | ⟨m, hm, hmk⟩)
        · exact Or.inl (Or.inl hk)
        · rcases List.mem_cons.1 hm with rfl | hm
          · exact Or.inl (Or.inr hmk.symm)
          · exact Or.inr ⟨m, hm, hmk⟩

/-- The loop maps an id to the target and to the serialized text of the last
matched node that carries it. -/
theorem collectRelationships_get? {Node : Type} (env : Env Node) (nodes : List Node)
    (idm elm : GoMap) (r : GoMap × GoMap)
    (h : collectRelationships env nodes idm elm = .ok r) (k : String) :
    r.1.get? k =
      (match nodes.reverse.find? (fun n => env.SelectAttr n "Id" == k) with
        | some n => some (env.SelectAttr n "Target")
        | none => idm.get? k) ∧
    r.2.get? k =
      (match nodes.reverse.find? (fun n => env.SelectAttr n "Id" == k) with
        | some n => some (env.OutputXML n true)
        | none => elm.get? k) := by
  induction nodes generalizing idm elm with
  | nil =>
    simp only [collectRelationships, Outcome.ok.injEq] at h
    subst h
    exact ⟨rfl, rfl⟩
  | cons n rest ih =>
    unfold collectRelationships at h
    split at h
    · exact Outcome.noConfusion h
    · obtain ⟨h1, h2⟩ := ih _ _ h
      rw [h1, h2, List.reverse_cons, List.find?_append]
      cases hf : rest.reverse.find? (fun n => env.SelectAttr n "Id" == k) with
      | some m => exact ⟨rfl, rfl⟩
      | none =>
        simp only [Option.or, GoMap.get?_set, List.find?_cons, List.find?_nil]
        by_cases hk : env.SelectAttr n "Id" = k
        · subst hk
          simp
        · have hne : (env.SelectAttr n "Id" == k) = false := by simpa using hk
          have hk' : ¬ k = env.SelectAttr n "Id" := fun h => hk h.symm
          simp [hne, hk']

/-- The index that `getCustomXMLRelationshipIDs` returns has its two maps on the
same keys, without repetition. -/
theorem getCustomXMLRelationshipIDs_keys {Node : Type} (env : Env Node) (d : Docx)
    (r : GoMap × GoMap) (h : getCustomXMLRelationshipIDs env d = .ok r) :
    r.1.map Prod.fst = r.2.map Prod.fst ∧ (r.1.map Prod.fst).Nodup := by
  unfold getCustomXMLRelationshipIDs at h
  split at h
  · exact Outcome.noConfusion h
  · split at h
    · exact Outcome.noConfusion h
    · split at h
      · simp only [Outcome.ok.injEq] at h
        subst h
        exact ⟨rfl, List.nodup_nil⟩
      · obtain ⟨h1, h2, _⟩ := collectRelationships_keys env _ [] [] r h rfl List.nodup_nil
        exact ⟨h1, h2⟩

/-- In a map without repeated keys an entry is determined by its key. -/
theorem GoMap.value_unique {m : GoMap} (hnd : (m.map Prod.fst).Nodup) {k v w : String}
    (hv : (k, v) ∈ m) (hw : (k, w) ∈ m) : v = w := by
  have := List.inj_on_of_nodup_map hnd hv hw rfl
  exact (Prod.mk.inj this).2

/-! ## Lemmas on the suffix test -/

/-- The test `strings.HasSuffix` holds exactly when the string is some text
followed by the suffix. -/
theorem hasSuffix_iff (s suffix : String) :
    hasSuffix s suffix = true ↔ ∃ pre : String, s = pre ++ suffix := by
  unfold hasSuffix
  rw [List.isSuffixOf_iff_suffix]
  constructor
  · rintro ⟨l, hl⟩
    exact ⟨⟨l⟩, String.ext (by simpa using hl.symm)⟩
  · rintro ⟨pre, rfl⟩
    exact ⟨pre.data, by simp⟩

/-- The ids that the filtering loop returns are the keys of the entries whose
target has the suffix. -/
theorem filterLoop_ids_mem (env_order : GoMap → GoMap)
    (hperm : ∀ m : GoMap, (env_order m).Perm m) (p : String) (idm elm : GoMap) (k : String) :
    k ∈ ((env_order idm).foldl
      (fun (acc : List String × GoMap) (e : String × String) =>
        if hasSuffix e.2 p then (acc.1 ++ [e.1], acc.2) else (acc.1, acc.2.delete e.1))
      ([], elm)).1 ↔ ∃ t, (k, t) ∈ idm ∧ hasSuffix t p = true := by
  rw [filterLoop_fst]
  simp only [List.nil_append, List.mem_map, List.mem_filter]
  constructor
  · rintro ⟨e, ⟨he, hs⟩, rfl⟩
    exact ⟨e.2, (hperm idm).mem_iff.1 he, hs⟩
  · rintro ⟨t, ht, hs⟩
    exact ⟨(k, t), ⟨(hperm idm).mem_iff.2 ht, hs⟩, rfl⟩

/-! ## Lemmas on `RemoveElementsFromMainDocument` -/

/-- When every matched node is an element, the loop collects the serialized text
of each, in order. -/
theorem collectRemovals_ok {Node : Type} (env : Env Node) (elementXpath : String)
    (elems : List Node) (removalArray : List String)
    (h : ∀ e ∈ elems, env.nodeType e = NodeType.ElementNode) :
    collectRemovals env elementXpath elems removalArray =
      .ok (removalArray ++ elems.map (fun e => env.OutputXML e true)) := by
  induction elems generalizing removalArray with
  | nil => simp [collectRemovals]
  | cons e rest ih =>
    unfold collectRemovals
    have he : env.nodeType e = NodeType.ElementNode := h e (List.mem_cons_self _ _)
    simp only [he, ne_eq, not_true_eq_false, if_false]
    rw [ih _ (fun m hm => h m (List.mem_cons_of_mem _ hm))]
    simp

/-- The loop never panics. -/
theorem collectRemovals_no_panic {Node : Type} (env : Env Node) (elementXpath : String)
    (elems : List Node) (removalArray : List String) (v : String) :
    collectRemovals env elementXpath elems removalArray ≠ .panic v := by
  induction elems generalizing removalArray with
  | nil => simp [collectRemovals]
  | cons e rest ih =>
    unfold collectRemovals
    split
    · exact fun h => Outcome.noConfusion h
    · exact ih _

/-- The call changes the main document content only. -/
theorem RemoveElements_frame {Node : Type} (env : Env Node) (d : Docx) (elementXpath : String) :
    (RemoveElementsFromMainDocument env d elementXpath).1.files = d.files ∧
    (RemoveElementsFromMainDocument env d elementXpath).1.links = d.links ∧
    (RemoveElementsFromMainDocument env d elementXpath).1.customXML = d.customXML := by
  unfold RemoveElementsFromMainDocument
  split
  · exact ⟨rfl, rfl, rfl⟩
  · split
    · exact ⟨rfl, rfl, rfl⟩
    · split
      · exact ⟨rfl, rfl, rfl⟩
      · split
        · exact ⟨rfl, rfl, rfl⟩
        · exact ⟨rfl, rfl, rfl⟩
        · split <;> exact ⟨rfl, rfl, rfl⟩

/-- A call that does not return nil leaves the package as it was. -/
theorem RemoveElements_fail_state {Node : Type} (env : Env Node) (d : Docx)
    (elementXpath : String)
    (h : (RemoveElementsFromMainDocument env d elementXpath).2 ≠ Ret.nil) :
    (RemoveElementsFromMainDocument env d elementXpath).1 = d := by
  unfold RemoveElementsFromMainDocument at h ⊢
  cases hparse : env.Parse d.content with
  | error e => simp
  | ok root =>
    cases hfind : env.Find root elementXpath with
    | error r => simp [hfind]
    | ok elems =>
      simp only [hparse, hfind] at h ⊢
      by_cases hlen : elems.length = 0
      · simp [hlen]
      · simp only [hlen, if_false] at h ⊢
        cases harr : collectRemovals env elementXpath elems [] with
        | error e => simp [harr]
        | panic v => simp [harr]
        | ok removalArray => simp [harr, remove] at h

/-- The shape of a successful call on matched element nodes. -/
theorem RemoveElements_ok {Node : Type} (env : Env Node) (d : Docx) (elementXpath : String)
    (root : Node) (elems : List Node)
    (hparse : env.Parse d.content = .ok root)
    (hfind : env.Find root elementXpath = .ok elems)
    (hne : elems ≠ [])
    (helem : ∀ e ∈ elems, env.nodeType e = NodeType.ElementNode) :
    RemoveElementsFromMainDocument env d elementXpath =
      ({ d with content :=
          (remove (env.OutputXML root false) (elems.map (fun e => env.OutputXML e true))).1 },
        Ret.nil) := by
  have hlen : ¬ elems.length = 0 := fun h => hne (List.length_eq_zero.1 h)
  unfold RemoveElementsFromMainDocument
  simp only [hparse, hfind, hlen, if_false, collectRemovals_ok env elementXpath elems [] helem,
    List.nil_append, remove]

/-! ## Lemmas on `GetCustomXMLByRootNs` -/

theorem GoMap.get?_of_mem {m : GoMap} (hnd : (m.map Prod.fst).Nodup) {k v : String}
    (h : (k, v) ∈ m) : m.get? k = some v := by
  unfold GoMap.get?
  induction m with
  | nil => exact absurd h (List.not_mem_nil _)
  | cons e m ih =>
    obtain ⟨a, b⟩ := e
    rw [List.map_cons, List.nodup_cons] at hnd
    rw [GoMap.lookup_cons_ite]
    rcases List.mem_cons.1 h with heq | hmem
    · obtain ⟨rfl, rfl⟩ := Prod.mk.inj heq
      simp
    · have hne : k ≠ a := by
        intro hka
        apply hnd.1
        rw [← hka]
        exact List.mem_map.2 ⟨(k, v), hmem, rfl⟩
      simp only [hne, if_false]
      exact ih hnd.2 hmem

theorem keepsPart_iff {Node : Type} (env : Env Node) (rootNS content : String) :
    keepsPart env rootNS content = true ↔
      ∃ doc first last, env.Parse content = .ok doc ∧
        env.FirstChild doc = some first ∧ env.nodeType first = NodeType.DeclarationNode ∧
        env.LastChild doc = some last ∧ env.NamespaceURI last = rootNS := by
  unfold keepsPart
  constructor
  · intro h
    split at h
    · exact absurd h (by simp)
    · rename_i doc hdoc
      split at h
      · rename_i first last hf hl
        simp only [Bool.and_eq_true, beq_iff_eq] at h
        exact ⟨doc, first, last, hdoc, hf, h.1, hl, h.2⟩
      · exact absurd h (by simp)
  · rintro ⟨doc, first, last, hdoc, hf, ht, hl, hn⟩
    simp [hdoc, hf, hl, ht, hn]

/-- The loop on well-formed parts: no error, and the result holds the entries
built so far together with the visited entries that pass the test. -/
theorem rootNsLoop_spec {Node : Type} (env : Env Node) (d : Docx) (rootNS : String)
    (l : List (String × String)) (acc : GoMap)
    (hget : ∀ e ∈ l, d.customXML.get? e.1 = some e.2)
    (hwf : ∀ e ∈ l, ∃ doc first last, env.Parse e.2 = .ok doc ∧
      env.FirstChild doc = some first ∧ env.LastChild doc = some last)
    (hnd : (acc.map Prod.fst ++ l.map Prod.fst).Nodup) :
    (rootNsLoop env d rootNS l acc).2 = none ∧
    ∀ x, x ∈ (rootNsLoop env d rootNS l acc).1 ↔
      x ∈ acc ∨ (x ∈ l ∧ keepsPart env rootNS x.2 = true) := by
  induction l generalizing acc with
  | nil =>
    unfold rootNsLoop
    by_cases hlen : acc.length = 0
    · have hnil : acc = [] := List.length_eq_zero.1 hlen
      subst hnil
      simp
    · simp [hlen]
  | cons e rest ih =>
    obtain ⟨p, c⟩ := e
    obtain ⟨doc, first, last, hdoc, hf, hl⟩ := hwf (p, c) (List.mem_cons_self _ _)
    have hc : d.customXML.get? p = some c := hget (p, c) (List.mem_cons_self _ _)
    have hget' : ∀ e ∈ rest, d.customXML.get? e.1 = some e.2 :=
      fun e he => hget e (List.mem_cons_of_mem _ he)
    have hwf' : ∀ e ∈ rest, ∃ doc first last, env.Parse e.2 = .ok doc ∧
        env.FirstChild doc = some first ∧ env.LastChild doc = some last :=
      fun e he => hwf e (List.mem_cons_of_mem _ he)
    have hp : p ∉ acc.map Prod.fst := by
      intro hmem
      have := (List.nodup_append.1 hnd).2.2
      exact this hmem (List.mem_cons_self _ _)
    have hkeep : keepsPart env rootNS c =
        (env.nodeType first == NodeType.DeclarationNode && env.NamespaceURI last == rootNS) := by
      unfold keepsPart
      simp only [hdoc, hf, hl]
    unfold rootNsLoop
    simp only [hc, Option.getD_some, hdoc, hf, hl]
    by_cases ht : env.nodeType first = NodeType.DeclarationNode
    · by_cases hn : env.NamespaceURI last = rootNS
      · simp only [ht, hn, if_true]
        rw [GoMap.set_of_not_key _ hp]
        have hnd' : ((acc ++ [(p, c)]).map Prod.fst ++ rest.map Prod.fst).Nodup := by
          simpa [List.map_append, List.append_assoc] using hnd
        obtain ⟨h1, h2⟩ := ih (acc ++ [(p, c)]) hget' hwf' hnd'
        refine ⟨h1, fun x => ?_⟩
        rw [h2]
        have hk : keepsPart env rootNS c = true := by
          rw [hkeep]; simp [ht, hn]
        simp only [List.mem_append, List.mem_cons, List.not_mem_nil, or_false]
        constructor
        · rintro ((hx | rfl) | ⟨hx, hkx⟩)
          · exact Or.inl hx
          · exact Or.inr ⟨Or.inl rfl, hk⟩
          · exact Or.inr ⟨Or.inr hx, hkx⟩
        · rintro (hx | ⟨rfl | hx, hkx⟩)
          · exact Or.inl (Or.inl hx)
          · exact Or.inl (Or.inr rfl)
          · exact Or.inr ⟨hx, hkx⟩
      · simp only [ht, hn, if_true, if_false]
        have hnd' : (acc.map Prod.fst ++ rest.map Prod.fst).Nodup := by
          have := hnd
          simp only [List.map_cons] at this
          exact (List.nodup_cons.1 (List.nodup_middle.1 this)).2
        obtain ⟨h1, h2⟩ := ih acc hget' hwf' hnd'
        refine ⟨h1, fun x => ?_⟩
        rw [h2]
        have hk : keepsPart env rootNS c = false := by
          rw [hkeep]; simp [hn]
        simp only [List.mem_cons]
        constructor
        · rintro (hx | ⟨hx, hkx⟩)
          · exact Or.inl hx
          · exact Or.inr ⟨Or.inr hx, hkx⟩
        · rintro (hx | ⟨rfl | hx, hkx⟩)
          · exact Or.inl hx
          · rw [hk] at hkx; exact Bool.noConfusion hkx
          · exact Or.inr ⟨hx, hkx⟩
    · simp only [ht, if_false]
      have hnd' : (acc.map Prod.fst ++ rest.map Prod.fst).Nodup := by
        have := hnd
        simp only [List.map_cons] at this
        exact (List.nodup_cons.1 (List.nodup_middle.1 this)).2
      obtain ⟨h1, h2⟩ := ih acc hget' hwf' hnd'
      refine ⟨h1, fun x => ?_⟩
      rw [h2]
      have hk : keepsPart env rootNS c = false := by
        rw [hkeep]; simp [ht]
      simp only [List.mem_cons]
      constructor
      · rintro (hx | ⟨hx, hkx⟩)
        · exact Or.inl hx
        · exact Or.inr ⟨Or.inr hx, hkx⟩
      · rintro (hx | ⟨rfl | hx, hkx⟩)
        · exact Or.inl hx
        · rw [hk] at hkx; exact Bool.noConfusion hkx
        · exact Or.inr ⟨hx, hkx⟩

/-- When the paths of the custom-data map are pairwise distinct and
every part parses to a document with a first and a last child,
`GetCustomXMLByRootNs` returns no error and a result with exactly the entries (path
and unchanged content) of the parts whose document starts with a declaration node
and whose last child has the given namespace; when no part is such, the result
has length 0. -/
theorem GetCustomXMLByRootNs_entries {Node : Type} (env : Env Node) (d : Docx)
    (rootNS : String)
    (hkeys : (d.customXML.map Prod.fst).Nodup)
    (hwf : ∀ e ∈ d.customXML, ∃ doc first last, env.Parse e.2 = .ok doc ∧
      env.FirstChild doc = some first ∧ env.LastChild doc = some last) :
    (GetCustomXMLByRootNs env d rootNS).2 = none ∧
    (∀ p c, (p, c) ∈ (GetCustomXMLByRootNs env d rootNS).1 ↔
      (p, c) ∈ d.customXML ∧
        ∃ doc first last, env.Parse c = .ok doc ∧
          env.FirstChild doc = some first ∧ env.nodeType first = NodeType.DeclarationNode ∧
          env.LastChild doc = some last ∧ env.NamespaceURI last = rootNS) ∧
    ((∀ p c, (p, c) ∈ d.customXML →
        ¬ ∃ doc first last, env.Parse c = .ok doc ∧
          env.FirstChild doc = some first ∧ env.nodeType first = NodeType.DeclarationNode ∧
          env.LastChild doc = some last ∧ env.NamespaceURI last = rootNS) →
      (GetCustomXMLByRootNs env d rootNS).1.length = 0) := by
  have hperm := env.rangeOrder_perm d.customXML
  have hspec := rootNsLoop_spec env d rootNS (env.rangeOrder d.customXML) []
    (fun e he => GoMap.get?_of_mem hkeys (hperm.mem_iff.1 he))
    (fun e he => hwf e (hperm.mem_iff.1 he))
    (by
      simp only [List.map_nil, List.nil_append]
      exact ((hperm.map Prod.fst).nodup_iff).2 hkeys)
  have hmem : ∀ p c, (p, c) ∈ (GetCustomXMLByRootNs env d rootNS).1 ↔
      (p, c) ∈ d.customXML ∧
        ∃ doc first last, env.Parse c = .ok doc ∧
          env.FirstChild doc = some first ∧ env.nodeType first = NodeType.DeclarationNode ∧
          env.LastChild doc = some last ∧ env.NamespaceURI last = rootNS := by
    intro p c
    unfold GetCustomXMLByRootNs
    rw [hspec.2, ← keepsPart_iff, hperm.mem_iff]
    simp
  refine ⟨hspec.1, hmem, fun hnone => ?_⟩
  rw [List.length_eq_zero, List.eq_nil_iff_forall_not_mem]
  intro x hx
  exact hnone x.1 x.2 ((hmem x.1 x.2).1 hx).1 ((hmem x.1 x.2).1 hx).2

/-! ## The reference resolver: claims C11, C12, C13, C19 and C20 -/

/-- C11: on the index that `getCustomXMLRelationshipIDs` builds,
`relationshipIdsToGivenOPCPart` returns as ids exactly the ids whose target ends
with the path, each once, and an element map that holds exactly the entries of
those ids, with the serialized elements unchanged; an id whose target does not end
with the path is in neither result. -/
theorem C11_ids_filtered_by_suffix {Node : Type} (env : Env Node) (d : Docx)
    (path : String) (idm elm : GoMap)
    (hidx : getCustomXMLRelationshipIDs env d = .ok (idm, elm)) :
    ∃ ids elems, relationshipIdsToGivenOPCPart env d path = .ok (ids, elems) ∧
      ids.Nodup ∧
      (∀ k, k ∈ ids ↔ ∃ t, (k, t) ∈ idm ∧ hasSuffix t path = true) ∧
      (∀ k v, (k, v) ∈ elems ↔ (k, v) ∈ elm ∧ k ∈ ids) ∧
      (∀ k, k ∈ elems.map Prod.fst ↔ k ∈ ids) := by
  obtain ⟨hsame, hnd⟩ := getCustomXMLRelationshipIDs_keys env d (idm, elm) hidx
  simp only at hsame hnd
  unfold relationshipIdsToGivenOPCPart
  rw [hidx]
  refine ⟨_, _, rfl, ?_, ?_, ?_, ?_⟩
  · rw [filterLoop_fst, List.nil_append]
    have hsub : (((env.rangeOrder idm).filter (fun e => hasSuffix e.2 path)).map Prod.fst).Sublist
        ((env.rangeOrder idm).map Prod.fst) := List.Sublist.map _ (List.filter_sublist _)
    exact hsub.nodup ((((env.rangeOrder_perm idm).map Prod.fst).nodup_iff).2 hnd)
  · exact fun k => filterLoop_ids_mem env.rangeOrder env.rangeOrder_perm path idm elm k
  · intro k v
    rw [filterLoop_snd_mem, filterLoop_ids_mem env.rangeOrder env.rangeOrder_perm]
    constructor
    · rintro ⟨hv, hall⟩
      refine ⟨hv, ?_⟩
      have hk : k ∈ idm.map Prod.fst := by
        rw [hsame]
        exact List.mem_map_of_mem Prod.fst hv
      obtain ⟨e, he, rfl⟩ := List.mem_map.1 hk
      refine ⟨e.2, he, ?_⟩
      by_contra hs
      have hs' : hasSuffix e.2 path = false := by simpa using hs
      exact hall e ((env.rangeOrder_perm idm).mem_iff.2 he) hs' rfl
    · rintro ⟨hv, t, ht, hs⟩
      refine ⟨hv, ?_⟩
      intro e he hfalse heq
      have he' : (k, e.2) ∈ idm := by
        have hmem := (env.rangeOrder_perm idm).mem_iff.1 he
        have heq' : e.1 = k := heq
        rw [← heq']
        exact hmem
      rw [GoMap.value_unique hnd he' ht, hs] at hfalse
      exact Bool.noConfusion hfalse
  · intro k
    rw [filterLoop_ids_mem env.rangeOrder env.rangeOrder_perm]
    constructor
    · intro hk
      obtain ⟨x, hx, rfl⟩ := List.mem_map.1 hk
      rw [filterLoop_snd_mem] at hx
      have hk' : x.1 ∈ idm.map Prod.fst := by
        rw [hsame]
        exact List.mem_map_of_mem Prod.fst hx.1
      obtain ⟨e, he, hex⟩ := List.mem_map.1 hk'
      refine ⟨e.2, by rw [← hex]; exact he, ?_⟩
      by_contra hs
      have hs' : hasSuffix e.2 path = false := by simpa using hs
      exact hx.2 e ((env.rangeOrder_perm idm).mem_iff.2 he) hs' hex
    · rintro ⟨t, ht, hs⟩
      have hk' : k ∈ elm.map Prod.fst := by
        rw [← hsame]
        exact List.mem_map_of_mem Prod.fst ht
      obtain ⟨x, hx, rfl⟩ := List.mem_map.1 hk'
      apply List.mem_map_of_mem Prod.fst
      rw [filterLoop_snd_mem]
      refine ⟨hx, ?_⟩
      intro e he hfalse heq
      have he' : (x.1, e.2) ∈ idm := by
        have := (env.rangeOrder_perm idm).mem_iff.1 he
        rw [← heq]
        exact this
      rw [GoMap.value_unique hnd he' ht, hs] at hfalse
      exact Bool.noConfusion hfalse

/-- C11, at a concrete input: the target `../customXml/item1.xml` matches the path
`customXml/item1.xml`, and the path `customXml/item99.xml` yields no ids. -/
theorem C11_ids_filtered_by_suffix_witness :
    (∃ ids elems, relationshipIdsToGivenOPCPart referenceEnv plainPackage "customXml/item1.xml"
        = .ok (ids, elems) ∧
      ids.Nodup ∧
      (∀ k, k ∈ ids ↔ ∃ t, (k, t) ∈ [("rId1", "../customXml/item1.xml"), ("rId2", "styles.xml")] ∧
        hasSuffix t "customXml/item1.xml" = true) ∧
      (∀ k v, (k, v) ∈ elems ↔
        (k, v) ∈ [("rId1", rel1.outer), ("rId2", rel2.outer)] ∧ k ∈ ids) ∧
      (∀ k, k ∈ elems.map Prod.fst ↔ k ∈ ids)) ∧
    relationshipIdsToGivenOPCPart referenceEnv plainPackage "customXml/item1.xml"
      = .ok (["rId1"], [("rId1", rel1.outer)]) ∧
    relationshipIdsToGivenOPCPart referenceEnv plainPackage "customXml/item99.xml"
      = .ok ([], []) :=
  ⟨C11_ids_filtered_by_suffix referenceEnv plainPackage "customXml/item1.xml"
      [("rId1", "../customXml/item1.xml"), ("rId2", "styles.xml")]
      [("rId1", rel1.outer), ("rId2", rel2.outer)] (by decide),
    by decide, by decide⟩

/-- C12, as stated, fails: the relationship with target `zcustomXml/item1.xml` is
returned for the path `customXml/item1.xml`. -/
theorem C12_stray_target_is_returned :
    relationshipIdsToGivenOPCPart extendedEnv strayTargetPackage "customXml/item1.xml"
      = .ok (["rId3"], [("rId3", rel3.outer)]) ∧
    rel3.SelectAttr "Target" = "zcustomXml/item1.xml" := by
  refine ⟨by decide, by decide⟩

/-- C12, amended: the comparison is `strings.HasSuffix` on the raw strings: the id
of a relationship is returned exactly when its target is some text followed by the
queried path. -/
theorem C12_raw_string_suffix {Node : Type} (env : Env Node) (d : Docx)
    (path : String) (idm elm : GoMap) (k t : String)
    (hidx : getCustomXMLRelationshipIDs env d = .ok (idm, elm))
    (hentry : (k, t) ∈ idm) :
    ∃ ids elems, relationshipIdsToGivenOPCPart env d path = .ok (ids, elems) ∧
      (k ∈ ids ↔ ∃ pre : String, t = pre ++ path) := by
  obtain ⟨_, hnd⟩ := getCustomXMLRelationshipIDs_keys env d (idm, elm) hidx
  simp only at hnd
  unfold relationshipIdsToGivenOPCPart
  rw [hidx]
  refine ⟨_, _, rfl, ?_⟩
  rw [filterLoop_ids_mem env.rangeOrder env.rangeOrder_perm, ← hasSuffix_iff]
  constructor
  · rintro ⟨t', ht', hs⟩
    rw [GoMap.value_unique hnd hentry ht']
    exact hs
  · intro hs
    exact ⟨t, hentry, hs⟩

/-- C12, amended, at a concrete input: the target `zcustomXml/item1.xml` is `z`
followed by the path. -/
theorem C12_raw_string_suffix_witness :
    ∃ ids elems, relationshipIdsToGivenOPCPart extendedEnv strayTargetPackage
        "customXml/item1.xml" = .ok (ids, elems) ∧
      ("rId3" ∈ ids ↔ ∃ pre : String, "zcustomXml/item1.xml" = pre ++ "customXml/item1.xml") :=
  C12_raw_string_suffix extendedEnv strayTargetPackage "customXml/item1.xml"
    [("rId3", "zcustomXml/item1.xml")] [("rId3", rel3.outer)] "rId3" "zcustomXml/item1.xml"
    (by decide) (by decide)

/-- C13, at the failing inputs: the main document that carries `r:id="rId1"` parses,
the query built from the ids finds one attribute node in it, and
`docReferencesRelsIds` answers false for the id `rId1`; on a content that is a
relationships document, without any such attribute, it answers true. For the empty
id list it answers false without error. -/
theorem C13_reference_not_detected :
    (match referenceEnv.Find citingDocument (referencesXPath ["rId1"]) with
      | .ok list => list.length
      | .error _ => 0) = 1 ∧
    docReferencesRelsIds referenceEnv citingPackage ["rId1"] = .ok false ∧
    (match referenceEnv.Find (relationshipsDocument [rel1, rel2]) (referencesXPath ["rId1"]) with
      | .ok list => list.length
      | .error _ => 1) = 0 ∧
    docReferencesRelsIds referenceEnv relationshipsAsContent ["rId1"] = .ok true ∧
    docReferencesRelsIds referenceEnv citingPackage [] = .ok false := by
  refine ⟨by decide, by decide, by decide, by decide, by decide⟩

/-- C19: when the relationships text parses and the query yields element nodes,
`getCustomXMLRelationshipIDs` returns no error and two maps on the same keys, which
are the `Id` attributes of the matched elements; an id is mapped to the `Target`
attribute and to the serialized text of the matched element that carries it (the
last one, should several carry it). With no matched element both maps are empty. -/
theorem C19_index_of_relationships {Node : Type} (env : Env Node) (d : Docx)
    (root : Node) (nodes : List Node)
    (hparse : env.Parse d.links = .ok root)
    (hfind : env.Find root retrieveDocumentRelationshipsXPath = .ok nodes)
    (helem : ∀ n ∈ nodes, env.nodeType n = NodeType.ElementNode) :
    ∃ idm elm, getCustomXMLRelationshipIDs env d = .ok (idm, elm) ∧
      idm.map Prod.fst = elm.map Prod.fst ∧
      (∀ k, k ∈ idm.map Prod.fst ↔ ∃ n ∈ nodes, env.SelectAttr n "Id" = k) ∧
      (∀ k, idm.get? k =
        (nodes.reverse.find? (fun n => env.SelectAttr n "Id" == k)).map
          (fun n => env.SelectAttr n "Target")) ∧
      (∀ k, elm.get? k =
        (nodes.reverse.find? (fun n => env.SelectAttr n "Id" == k)).map
          (fun n => env.OutputXML n true)) ∧
      (nodes = [] → idm = [] ∧ elm = []) := by
  unfold getCustomXMLRelationshipIDs
  simp only [hparse, hfind]
  by_cases hlen : nodes.length = 0
  · have hnil : nodes = [] := List.length_eq_zero.1 hlen
    subst hnil
    simp only [List.length_nil, if_true]
    refine ⟨[], [], rfl, rfl, ?_, ?_, ?_, fun _ => ⟨rfl, rfl⟩⟩
    · intro k; simp
    · intro k; rfl
    · intro k; rfl
  · simp only [hlen, if_false]
    obtain ⟨r, hr⟩ := collectRelationships_total env nodes [] [] helem
    obtain ⟨h1, _, h3⟩ := collectRelationships_keys env nodes [] [] r hr rfl List.nodup_nil
    refine ⟨r.1, r.2, hr, h1, ?_, ?_, ?_, ?_⟩
    · intro k
      rw [h3]
      simp
    · intro k
      rw [(collectRelationships_get? env nodes [] [] r hr k).1]
      cases nodes.reverse.find? (fun n => env.SelectAttr n "Id" == k) <;> rfl
    · intro k
      rw [(collectRelationships_get? env nodes [] [] r hr k).2]
      cases nodes.reverse.find? (fun n => env.SelectAttr n "Id" == k) <;> rfl
    · intro hnil
      rw [hnil] at hlen
      exact absurd rfl hlen

/-- C19, at a concrete input: `rId1` is mapped to `../customXml/item1.xml`. -/
theorem C19_index_of_relationships_witness :
    (match getCustomXMLRelationshipIDs referenceEnv plainPackage with
      | .ok r => r.1.get? "rId1"
      | _ => none) = some "../customXml/item1.xml" ∧
    ∃ idm elm, getCustomXMLRelationshipIDs referenceEnv plainPackage = .ok (idm, elm) ∧
      idm.map Prod.fst = elm.map Prod.fst ∧
      (∀ k, k ∈ idm.map Prod.fst ↔ ∃ n ∈ [rel1, rel2], referenceEnv.SelectAttr n "Id" = k) ∧
      (∀ k, idm.get? k =
        ([rel1, rel2].reverse.find? (fun n => referenceEnv.SelectAttr n "Id" == k)).map
          (fun n => referenceEnv.SelectAttr n "Target")) ∧
      (∀ k, elm.get? k =
        ([rel1, rel2].reverse.find? (fun n => referenceEnv.SelectAttr n "Id" == k)).map
          (fun n => referenceEnv.OutputXML n true)) ∧
      ([rel1, rel2] = [] → idm = [] ∧ elm = []) :=
  ⟨by decide,
    C19_index_of_relationships referenceEnv plainPackage (relationshipsDocument [rel1, rel2])
      [rel1, rel2] rfl rfl
      (by
        intro n hn
        simp only [List.mem_cons, List.mem_singleton, List.not_mem_nil, or_false] at hn
        rcases hn with rfl | rfl <;> rfl)⟩

/-- C20: for two non-empty id lists `docReferencesRelsIds` returns the same result
on the same main document: the result is that of the fixed relationships query on
the parsed document, whatever the ids. -/
theorem C20_ids_do_not_matter {Node : Type} (env : Env Node) (d : Docx)
    (A B : List String) (hA : A ≠ []) (hB : B ≠ []) :
    docReferencesRelsIds env d A = docReferencesRelsIds env d B ∧
    ∀ root nodes, env.Parse d.content = .ok root →
      env.Find root retrieveDocumentRelationshipsXPath = .ok nodes →
      docReferencesRelsIds env d A = .ok (decide (nodes.length > 0)) := by
  have hlenA : ¬ A.length = 0 := fun h => hA (List.length_eq_zero.1 h)
  have hlenB : ¬ B.length = 0 := fun h => hB (List.length_eq_zero.1 h)
  constructor
  · unfold docReferencesRelsIds
    simp only [hlenA, hlenB, if_false]
  · intro root nodes hparse hfind
    unfold docReferencesRelsIds
    simp only [hlenA, if_false, hparse, hfind]
    by_cases hn : nodes.length > 0
    · simp [hn]
    · simp [hn]

/-- C20, at a concrete input: the ids `rId1` and `rId2` on the document that cites
`rId1` only. -/
theorem C20_ids_do_not_matter_witness :
    docReferencesRelsIds referenceEnv citingPackage ["rId1"] =
      docReferencesRelsIds referenceEnv citingPackage ["rId2"] :=
  (C20_ids_do_not_matter referenceEnv citingPackage ["rId1"] ["rId2"]
    (by decide) (by decide)).1

/-! ## The main-document element remover and the namespace filter: claims C14 to C18 -/

/-- C14, at the failing input: the main document parses, the query `/something`
matches no node, and `RemoveElementsFromMainDocument` returns an error built by
`fmt.Errorf`, which is not a `NoElementsFoundAtXPath`; the package is unchanged. -/
theorem C14_no_match_error_type :
    extendedEnv.Parse threeParagraphsPackage.content = .ok threeParagraphs ∧
    extendedEnv.Find threeParagraphs "/something" = .ok [] ∧
    RemoveElementsFromMainDocument extendedEnv threeParagraphsPackage "/something" =
      (threeParagraphsPackage,
        Ret.error (GoError.errorString "No elements found at /something")) ∧
    ∀ msg, (RemoveElementsFromMainDocument extendedEnv threeParagraphsPackage "/something").2 ≠
      Ret.error (GoError.NoElementsFoundAtXPath msg) := by
  have h : RemoveElementsFromMainDocument extendedEnv threeParagraphsPackage "/something" =
      (threeParagraphsPackage,
        Ret.error (GoError.errorString "No elements found at /something")) := by decide
  refine ⟨rfl, rfl, h, ?_⟩
  intro msg hmsg
  rw [h] at hmsg
  exact GoError.noConfusion (Ret.error.inj hmsg)

/-- C15, at the failing input: the main document parses, the query `//text()`
matches one text node, and `RemoveElementsFromMainDocument` returns a
`NoCustomXmlPartError`, the error type of a missing custom-data part; the package
is unchanged. -/
theorem C15_non_element_error_type :
    extendedEnv.Parse textPackage.content = .ok textParagraph ∧
    (match extendedEnv.Find textParagraph "//text()" with
      | .ok list => list.map SNode.kind
      | .error _ => []) = [NodeType.TextNode] ∧
    RemoveElementsFromMainDocument extendedEnv textPackage "//text()" =
      (textPackage, Ret.error (GoError.NoCustomXmlPartError
        "Expected Element Nodes for given Xpath '//text()' but found 'TextNode' ")) := by
  refine ⟨rfl, by decide, by decide⟩

/-- C16: whenever `RemoveElementsFromMainDocument` does not return nil, the main
document content is that of before the call; the part list, the relationships text
and the custom-data map are never changed. -/
theorem C16_all_or_nothing {Node : Type} (env : Env Node) (d : Docx) (elementXpath : String) :
    ((RemoveElementsFromMainDocument env d elementXpath).2 ≠ Ret.nil →
      (RemoveElementsFromMainDocument env d elementXpath).1.content = d.content) ∧
    (RemoveElementsFromMainDocument env d elementXpath).1.files = d.files ∧
    (RemoveElementsFromMainDocument env d elementXpath).1.links = d.links ∧
    (RemoveElementsFromMainDocument env d elementXpath).1.customXML = d.customXML := by
  refine ⟨fun h => ?_, RemoveElements_frame env d elementXpath⟩
  rw [RemoveElements_fail_state env d elementXpath h]

/-- C16, at a concrete input: the evaluator panics on the expression, the panic is
recovered into an error and the content is unchanged. -/
theorem C16_all_or_nothing_witness :
    (RemoveElementsFromMainDocument extendedEnv threeParagraphsPackage "//bad[").2 =
      Ret.error (GoError.errorString "Recovered from XPath error :expression not supported") ∧
    (RemoveElementsFromMainDocument extendedEnv threeParagraphsPackage "//bad[").1.content =
      threeParagraphsPackage.content :=
  ⟨by decide,
    (C16_all_or_nothing extendedEnv threeParagraphsPackage "//bad[").1 (by decide)⟩

/-- C17, as stated, fails: the query `/*/*/*[1]` matches the first of two
paragraphs with the same serialized text; the call succeeds and both paragraphs
are gone, so the content is not the document with exactly the matched element
removed. -/
theorem C17_unmatched_twin_is_removed :
    extendedEnv.Parse twinPackage.content = .ok twinParagraphs ∧
    (match extendedEnv.Find twinParagraphs "/*/*/*[1]" with
      | .ok list => list.map SNode.outer
      | .error _ => []) = ["<w:p></w:p>"] ∧
    (RemoveElementsFromMainDocument extendedEnv twinPackage "/*/*/*[1]").2 = Ret.nil ∧
    (RemoveElementsFromMainDocument extendedEnv twinPackage "/*/*/*[1]").1.content =
      (bodyDocument [sectPr]).OutputXML false ∧
    (RemoveElementsFromMainDocument extendedEnv twinPackage "/*/*/*[1]").1.content ≠
      (bodyDocument [paragraph [] [], sectPr]).OutputXML false := by
  refine ⟨rfl, by decide, by decide, by decide, by decide⟩

/-- C17, amended: when the main document parses and the query matches element
nodes only, at least one, `RemoveElementsFromMainDocument` returns nil and the new
content is the normalized serialization with the serialized text of the matched
elements deleted. The normalized text is cut into consecutive pieces; the new
content is the pieces that are kept, in order; every dropped piece is the
serialized text of a matched element; and no non-empty serialized text of a
matched element starts inside a kept piece. When the normalized text is laid out
in segments in which the serialized texts of the matched elements occur only in
place, the new content is the segments that are not the serialized text of a
matched element: every segment with such a text is gone, that of an unmatched
element too, and the others are unchanged. -/
theorem C17_matched_text_deleted {Node : Type} (env : Env Node) (d : Docx)
    (elementXpath : String) (root : Node) (elems : List Node)
    (hparse : env.Parse d.content = .ok root)
    (hfind : env.Find root elementXpath = .ok elems)
    (hne : elems ≠ [])
    (helem : ∀ e ∈ elems, env.nodeType e = NodeType.ElementNode) :
    (RemoveElementsFromMainDocument env d elementXpath).2 = Ret.nil ∧
    (∃ pieces : List (Bool × String),
      (pieces.map (fun p => p.2.data)).flatten = (env.OutputXML root false).data ∧
      ((pieces.filter (fun p => !p.1)).map (fun p => p.2.data)).flatten =
        (RemoveElementsFromMainDocument env d elementXpath).1.content.data ∧
      (∀ p ∈ pieces, p.1 = true → ∃ e ∈ elems, p.2 = env.OutputXML e true) ∧
      ∀ A p B, pieces = A ++ p :: B → p.1 = false → ∀ u v, p.2.data = u ++ v → v ≠ [] →
        ∀ e ∈ elems, env.OutputXML e true ≠ "" →
          ¬ (env.OutputXML e true).data <+: v ++ (B.map (fun q => q.2.data)).flatten) ∧
    ∀ segs : List String, String.join segs = env.OutputXML root false →
      OccursInPlace (elems.map (fun e => env.OutputXML e true)) segs →
      (RemoveElementsFromMainDocument env d elementXpath).1.content =
        String.join (segs.filter
          (fun s => !(elems.map (fun e => env.OutputXML e true)).contains s)) := by
  rw [RemoveElements_ok env d elementXpath root elems hparse hfind hne helem]
  refine ⟨rfl, ?_, ?_⟩
  · obtain ⟨ps, h1, h2, h3, h4⟩ :=
      replaceFrom_text_pieces (env.OutputXML root false) (elems.map (fun e => env.OutputXML e true))
    refine ⟨ps, h1, h2, fun p hp hp1 => ?_, fun A p B hsplit hp u v huv hv e he hene => ?_⟩
    · obtain ⟨e, he, hep⟩ := List.mem_map.1 (h3 p hp hp1)
      exact ⟨e, he, hep.symm⟩
    · exact h4 A p B hsplit hp u v huv hv _ (List.mem_map.2 ⟨e, he, rfl⟩) hene
  · intro segs hsegs hplace
    show (remove (env.OutputXML root false) (elems.map (fun e => env.OutputXML e true))).1 = _
    rw [← hsegs]
    exact String.ext (replaceFrom_inPlace _ segs hplace)

/-- C17, amended, at a concrete input: the query of the repository test matches
three sibling paragraphs; the normalized text is the opening text, the three
paragraphs, the section properties and the closing text; the new content is the
document without the three paragraphs, in which the query finds nothing. -/
theorem C17_matched_text_deleted_witness :
    (RemoveElementsFromMainDocument extendedEnv threeParagraphsPackage paragraphsXPath).2
      = Ret.nil ∧
    (RemoveElementsFromMainDocument extendedEnv threeParagraphsPackage paragraphsXPath).1.content
      = String.join [bodyOpen, sectPr.outer, bodyClose] ∧
    String.join [bodyOpen, sectPr.outer, bodyClose] = (bodyDocument [sectPr]).OutputXML false ∧
    extendedEnv.Parse (String.join [bodyOpen, sectPr.outer, bodyClose]) =
      .ok (bodyDocument [sectPr]) ∧
    (match extendedEnv.Find (bodyDocument [sectPr]) paragraphsXPath with
      | .ok list => list.length
      | .error _ => 1) = 0 :=
  have h := C17_matched_text_deleted extendedEnv threeParagraphsPackage paragraphsXPath
    threeParagraphs [paragraphA, paragraphB, paragraphC] rfl rfl (by simp)
    (by
      intro e he
      simp only [List.mem_cons, List.mem_singleton, List.not_mem_nil, or_false] at he
      rcases he with rfl | rfl | rfl <;> rfl)
  ⟨h.1,
    (h.2.2 [bodyOpen, paragraphA.outer, paragraphB.outer, paragraphC.outer, sectPr.outer,
      bodyClose] (by decide) threeParagraphs_inPlace).trans (by decide),
    by decide, rfl, by decide⟩

/-- C18, at the failing input: a well-formed part with an XML declaration, the root
element in the namespace `urn:x` and a newline after the root element. The parser
yields the declaration, the root element and a text node for the newline, so the
last child of the document is the text node, whose namespace is empty: the part is
not in the result for `urn:x`, alone in the package (the result is nil) or next to
two parts that are returned. -/
theorem C18_part_with_trailing_text_is_dropped :
    trailingPart.OutputXML false = declaredPart.OutputXML false ++ "\n" ∧
    extendedEnv.Parse (trailingPart.OutputXML false) = .ok trailingPart ∧
    trailingPart.children.map (fun n => (n.kind, n.NamespaceURI)) =
      [(NodeType.DeclarationNode, ""), (NodeType.ElementNode, "urn:x"),
        (NodeType.TextNode, "")] ∧
    GetCustomXMLByRootNs extendedEnv
      (packageOf plainDocument [("customXml/item3.xml", trailingPart.OutputXML false)])
      "urn:x" = ([], none) ∧
    GetCustomXMLByRootNs extendedEnv partsPackage "urn:x" =
      ([("customXml/item1.xml", declaredPart.OutputXML false),
        ("customXml/item2.xml", bareText)], none) ∧
    ("customXml/item3.xml", trailingPart.OutputXML false) ∉
      (GetCustomXMLByRootNs extendedEnv partsPackage "urn:x").1 := by
  refine ⟨by decide, rfl, by decide, by decide, by decide, by decide⟩

end docx
